import Mathlib

/-!
Shallow embedding of the med-lit-graph query execution engine
(`tests/mini_server/query_executor.py` and the `/query` endpoint of
`tests/mini_server/server.py`), together with theorems settling the
frozen claims about it.

Conventions of the embedding:
* Python dict/JSON scalars and containers are modelled by `MLG.Value`
  (strings, numbers as rationals, lists, string-keyed dicts, `None`).
* Python `dict.get(k)` returning `None` for a missing key is modelled by
  a total lookup returning `Value.vnone`.
* Python truthiness (`if x:`) of optional strings/numbers/lists is
  modelled explicitly where the source relies on it.
* `re.search(pattern, text, re.IGNORECASE)` is an external library call;
  it is modelled as an explicit oracle parameter
  `regexSearchIC : String → String → Option Bool` where `none` stands
  for `re.error` (invalid pattern) and `some b` for the boolean outcome
  of the case-insensitive search.
* Python's `min`/`max` raise `TypeError` on incomparable values; the
  embedding totalises the comparison scan by keeping the current best
  element whenever the two values are incomparable.  All theorems and
  counterexamples below only evaluate these functions on homogeneous
  value lists, where the embedding agrees with Python exactly.
-/

namespace MLG

set_option maxRecDepth 8192

/-- Python/JSON values as stored in entity and relationship fields. -/
inductive Value where
  | vstr (s : String)
  | vnum (q : ℚ)
  | vlist (l : List Value)
  | vdict (l : List (String × Value))
  | vnone

mutual

/-- Decidable equality on values (hand-rolled: the nested occurrences of
`Value` under `List` defeat the automatic derivation). -/
def decEqValue : (a b : Value) → Decidable (a = b)
  | .vstr a, .vstr b =>
    match String.decEq a b with
    | isTrue h => isTrue (by rw [h])
    | isFalse h => isFalse (fun hh => h (Value.vstr.inj hh))
  | .vnum a, .vnum b =>
    match decEq a b with
    | isTrue h => isTrue (by rw [h])
    | isFalse h => isFalse (fun hh => h (Value.vnum.inj hh))
  | .vlist a, .vlist b =>
    match decEqValueList a b with
    | isTrue h => isTrue (by rw [h])
    | isFalse h => isFalse (fun hh => h (Value.vlist.inj hh))
  | .vdict a, .vdict b =>
    match decEqValueDict a b with
    | isTrue h => isTrue (by rw [h])
    | isFalse h => isFalse (fun hh => h (Value.vdict.inj hh))
  | .vnone, .vnone => isTrue rfl
  | .vstr _, .vnum _ => isFalse (fun h => Value.noConfusion h)
  | .vstr _, .vlist _ => isFalse (fun h => Value.noConfusion h)
  | .vstr _, .vdict _ => isFalse (fun h => Value.noConfusion h)
  | .vstr _, .vnone => isFalse (fun h => Value.noConfusion h)
  | .vnum _, .vstr _ => isFalse (fun h => Value.noConfusion h)
  | .vnum _, .vlist _ => isFalse (fun h => Value.noConfusion h)
  | .vnum _, .vdict _ => isFalse (fun h => Value.noConfusion h)
  | .vnum _, .vnone => isFalse (fun h => Value.noConfusion h)
  | .vlist _, .vstr _ => isFalse (fun h => Value.noConfusion h)
  | .vlist _, .vnum _ => isFalse (fun h => Value.noConfusion h)
  | .vlist _, .vdict _ => isFalse (fun h => Value.noConfusion h)
  | .vlist _, .vnone => isFalse (fun h => Value.noConfusion h)
  | .vdict _, .vstr _ => isFalse (fun h => Value.noConfusion h)
  | .vdict _, .vnum _ => isFalse (fun h => Value.noConfusion h)
  | .vdict _, .vlist _ => isFalse (fun h => Value.noConfusion h)
  | .vdict _, .vnone => isFalse (fun h => Value.noConfusion h)
  | .vnone, .vstr _ => isFalse (fun h => Value.noConfusion h)
  | .vnone, .vnum _ => isFalse (fun h => Value.noConfusion h)
  | .vnone, .vlist _ => isFalse (fun h => Value.noConfusion h)
  | .vnone, .vdict _ => isFalse (fun h => Value.noConfusion h)

def decEqValueList : (a b : List Value) → Decidable (a = b)
  | [], [] => isTrue rfl
  | [], _ :: _ => isFalse (fun h => List.noConfusion h)
  | _ :: _, [] => isFalse (fun h => List.noConfusion h)
  | a :: as, b :: bs =>
    match decEqValue a b with
    | isFalse h => isFalse (fun hh => h (List.cons.inj hh).1)
    | isTrue h1 =>
      match decEqValueList as bs with
      | isTrue h2 => isTrue (by rw [h1, h2])
      | isFalse h => isFalse (fun hh => h (List.cons.inj hh).2)

def decEqValueDict : (a b : List (String × Value)) → Decidable (a = b)
  | [], [] => isTrue rfl
  | [], _ :: _ => isFalse (fun h => List.noConfusion h)
  | _ :: _, [] => isFalse (fun h => List.noConfusion h)
  | (k1, v1) :: as, (k2, v2) :: bs =>
    match String.decEq k1 k2 with
    | isFalse h =>
      isFalse (fun hh => h (congrArg Prod.fst (List.cons.inj hh).1))
    | isTrue hk =>
      match decEqValue v1 v2 with
      | isFalse h =>
        isFalse (fun hh => h (congrArg Prod.snd (List.cons.inj hh).1))
      | isTrue hv =>
        match decEqValueDict as bs with
        | isTrue h2 => isTrue (by rw [hk, hv, h2])
        | isFalse h => isFalse (fun hh => h (List.cons.inj hh).2)

end

instance : DecidableEq Value := decEqValue

/-- Python truthiness of a value (`bool(x)`): `None`, `""`, `0`, `[]`
and an empty dict are falsy. -/
def Value.truthy : Value → Bool
  | .vstr s => s != ""
  | .vnum q => q != 0
  | .vlist l => !l.isEmpty
  | .vdict l => !l.isEmpty
  | .vnone => false

/-- `a or b` on values, as Python evaluates it: `a` when truthy, else `b`. -/
def pyOr (a b : Value) : Value := if a.truthy then a else b

/-- Rendering of a rational the way the grouping code renders `str(x)`:
integers without a denominator, other rationals as `num/den`.  Only
injectivity matters for group keys. -/
def ratStr (q : ℚ) : String :=
  if q.den = 1 then toString q.num else toString q.num ++ "/" ++ toString q.den

mutual

/-- `str(v)` for a value, used to build group-by keys. -/
def pyStr : Value → String
  | .vstr s => s
  | .vnum q => ratStr q
  | .vlist l => "[" ++ pyStrList l ++ "]"
  | .vdict l => "dict[" ++ pyStrDict l ++ "]"
  | .vnone => "None"

def pyStrList : List Value → String
  | [] => ""
  | [v] => pyStr v
  | v :: vs => pyStr v ++ ", " ++ pyStrList vs

def pyStrDict : List (String × Value) → String
  | [] => ""
  | (k, v) :: l => k ++ ": " ++ pyStr v ++ "; " ++ pyStrDict l

end

mutual

/-- Python `a < b` restricted to the value types of this system:
`some b` when the comparison is defined, `none` for `TypeError`. -/
def pyLt : Value → Value → Option Bool
  | .vnum a, .vnum b => some (decide (a < b))
  | .vstr a, .vstr b => some (decide (a < b))
  | .vlist a, .vlist b => pyLtList a b
  | _, _ => none

/-- Python lexicographic list comparison: elements are first compared
with `==`, then with `<` at the first difference. -/
def pyLtList : List Value → List Value → Option Bool
  | [], [] => some false
  | [], _ :: _ => some true
  | _ :: _, [] => some false
  | a :: as, b :: bs => if a = b then pyLtList as bs else pyLt a b

end

/-- `str.lower()` (over the string's character list, which the kernel
can evaluate, unlike `String.toLower`). -/
def strLower (s : String) : String := ⟨s.data.map Char.toLower⟩

/-- `str.upper()`. -/
def strUpper (s : String) : String := ⟨s.data.map Char.toUpper⟩

/-- Whether `sub` occurs as a contiguous run of `l`. -/
def charsHasInfix (sub : List Char) : List Char → Bool
  | [] => sub.isEmpty
  | c :: t => sub.isPrefixOf (c :: t) || charsHasInfix sub t

/-- Python `sub in s` on strings (substring containment). -/
def pyInStr (sub s : String) : Bool :=
  if sub = "" then true else charsHasInfix sub.data s.data

/-- `s.endswith(post)`. -/
def strEndsWith (s post : String) : Bool := post.data.isSuffixOf s.data

/-- `s.startswith(pre)`. -/
def strStartsWith (s pre : String) : Bool := pre.data.isPrefixOf s.data

/-- Split a character list at its first `'.'`. -/
def splitCharsAtDot : List Char → Option (List Char × List Char)
  | [] => none
  | c :: cs =>
    if c = '.' then some ([], cs)
    else match splitCharsAtDot cs with
      | some (a, b) => some (c :: a, b)
      | none => none

/-- `field.split(".", 1)`: `none` when the string has no dot, otherwise
the part before the first dot and the rest. -/
def splitField (s : String) : Option (String × String) :=
  match splitCharsAtDot s.data with
  | some (a, b) => some (⟨a⟩, ⟨b⟩)
  | none => none

/-- An entity record: the fixed keys `id`, `name`, `type` plus any
further attributes. -/
structure Entity where
  id : String
  name : String
  type : String
  attrs : List (String × Value)
deriving DecidableEq

/-- `entity.get(field)`: fixed keys first, then the attribute map,
`None` when absent. -/
def Entity.get (e : Entity) (field : String) : Value :=
  if field = "id" then .vstr e.id
  else if field = "name" then .vstr e.name
  else if field = "type" then .vstr e.type
  else match e.attrs.find? (fun p => p.1 = field) with
    | some p => p.2
    | none => .vnone

/-- A relationship record with its fixed keys plus spill-over attributes. -/
structure Rel where
  subject_id : String
  predicate : String
  object_id : String
  confidence : Option ℚ
  evidence_count : Option ℚ
  papers : List Value
  metadata : List (String × Value)
  attrs : List (String × Value)
deriving DecidableEq

/-- `rel.get(field)`: fixed keys first, then the attribute map. -/
def Rel.get (r : Rel) (field : String) : Value :=
  if field = "subject_id" then .vstr r.subject_id
  else if field = "predicate" then .vstr r.predicate
  else if field = "object_id" then .vstr r.object_id
  else if field = "confidence" then
    match r.confidence with | some c => .vnum c | none => .vnone
  else if field = "evidence_count" then
    match r.evidence_count with | some c => .vnum c | none => .vnone
  else if field = "papers" then .vlist r.papers
  else if field = "metadata" then .vdict r.metadata
  else match r.attrs.find? (fun p => p.1 = field) with
    | some p => p.2
    | none => .vnone

/-- The in-memory snapshot handed to the interpreter: the values of the
`entities` dict in insertion order, and the `relationships` list. -/
structure Dataset where
  entities : List Entity
  relationships : List Rel
deriving DecidableEq

/-- `entities[eid]` / `eid in entities`: first entity with the given id. -/
def entLookup (ents : List Entity) (eid : String) : Option Entity :=
  ents.find? (fun e => e.id = eid)

/-- A result row: an insertion-ordered dict from field names to values. -/
abbrev Row := List (String × Value)

/-- Dict assignment `row[k] = v`: replace in place when the key exists,
otherwise append. -/
def rowInsert : Row → String → Value → Row
  | [], k, v => [(k, v)]
  | (k0, v0) :: rest, k, v =>
    if k0 = k then (k0, v) :: rest else (k0, v0) :: rowInsert rest k v

/-- `row.get(k)` as an `Option`. -/
def rowLookup (r : Row) (k : String) : Option Value :=
  (r.find? (fun p => p.1 = k)).map (fun p => p.2)

/-- `row.get(k, d)`. -/
def rowGetD (r : Row) (k : String) (d : Value) : Value :=
  (rowLookup r k).getD d

/-- An optional string field guarded by Python truthiness (`if s:`):
`some s` only when present and non-empty. -/
def sActive : Option String → Option String
  | some s => if s = "" then none else some s
  | none => none

/-- An optional numeric field guarded by Python truthiness (`if x:`):
`some q` only when present and non-zero. -/
def qActive : Option ℚ → Option ℚ
  | some q => if q = 0 then none else some q
  | none => none

/-- `node_pattern` / path node specification.  `filter_nodes_by_pattern`
reads only `node_type`, `name` and `var`; `matches_node_spec`
additionally reads `node_types`. -/
structure NodePattern where
  node_type : Option String := none
  node_types : List String := []
  name : Option String := none
  var : Option String := none
deriving DecidableEq

/-- `edge_pattern` fields read by `matches_edge_pattern` and the SQL
compiler.  A query's absent or empty `edge_pattern` dict is modelled as
`none` at the query level. -/
structure EdgePattern where
  relation_type : Option String := none
  min_confidence : Option ℚ := none
deriving DecidableEq

/-- One `PropertyFilter`, with the source's defaults for missing keys
(`field` defaults to `""`, `operator` to `"eq"`) already applied. -/
structure PropertyFilter where
  field : String := ""
  operator : String := "eq"
  value : Value := .vnone
deriving DecidableEq

/-- Path-hop edge specification (first element of an `edges` item). -/
structure EdgeSpec where
  relation_type : Option String := none
  relation_types : List String := []
  min_confidence : Option ℚ := none
  var : Option String := none
deriving DecidableEq

/-- One item of `path_pattern.edges`: either a well-formed
`[edge_spec, node_spec]` pair or a malformed entry, which
`is_valid_edge_spec` rejects. -/
inductive EdgeSpecItem where
  | valid (edge : EdgeSpec) (node : NodePattern)
  | malformed
deriving DecidableEq

/-- `path_pattern`. -/
structure PathPattern where
  start : NodePattern := {}
  edges : List EdgeSpecItem := []
  max_hops : Option Int := none
  avoid_cycles : Option Bool := none
deriving DecidableEq

/-- `aggregate`: `group_by` plus named `aggregations`, each a JSON list
whose first two elements are the function and the field reference. -/
structure Aggregate where
  group_by : List String := []
  aggregations : List (String × List String) := []
deriving DecidableEq

/-- Top-level `vector_search` parameters. -/
structure VectorParams where
  text : Option String := none
  top_k : Option Int := none
  min_similarity : Option ℚ := none
deriving DecidableEq

/-- The query envelope.  Optional members model absent (or empty-dict,
where the source tests truthiness) JSON keys; `offset` is carried by the
query model even though the executor never reads it. -/
structure Query where
  find : String := "nodes"
  node_pattern : NodePattern := {}
  edge_pattern : Option EdgePattern := none
  path_pattern : Option PathPattern := none
  filters : List PropertyFilter := []
  aggregate : Option Aggregate := none
  order_by : List (String × String) := []
  limit : Option Int := none
  offset : Option Int := none
  return_fields : Option (List String) := none
  vector_search : Option VectorParams := none
deriving DecidableEq

/-- The oracle standing for `re.search(pattern, text, re.IGNORECASE)`:
`none` when compiling the pattern raises `re.error`, otherwise whether
the search matched. -/
abbrev RegexOracle := String → String → Option Bool

/-- `MAX_REGEX_PATTERN_LENGTH`. -/
def MAX_REGEX_PATTERN_LENGTH : Nat := 200

/-- `apply_operator(actual_value, operator, expected_value)`. -/
def apply_operator (regexSearchIC : RegexOracle) (actual : Value)
    (operator : String) (expected : Value) : Bool :=
  if operator = "eq" then
    match actual, expected with
    | .vstr a, .vstr b => strLower a = strLower b
    | _, _ => actual = expected
  else if operator = "ne" then
    match actual, expected with
    | .vstr a, .vstr b => strLower a ≠ strLower b
    | _, _ => actual ≠ expected
  else if operator = "in" then
    match expected with
    | .vlist l =>
      match actual with
      | .vstr a => l.any (fun v => strLower a = strLower (pyStr v))
      | _ => l.contains actual
    | _ => false
  else if operator = "contains" then
    match actual, expected with
    | .vstr a, .vstr b => pyInStr (strLower b) (strLower a)
    | _, _ => false
  else if operator = "regex" then
    match actual, expected with
    | .vstr a, .vstr p =>
      if p.length > MAX_REGEX_PATTERN_LENGTH then false
      else match regexSearchIC p a with
        | some b => b
        | none => false
    | _, _ => false
  else if operator = "gt" then
    if actual = .vnone ∨ expected = .vnone then false
    else match pyLt expected actual with
      | some b => b
      | none => false
  else if operator = "gte" then
    if actual = .vnone ∨ expected = .vnone then false
    else match pyLt actual expected with
      | some b => !b
      | none => false
  else if operator = "lt" then
    if actual = .vnone ∨ expected = .vnone then false
    else match pyLt actual expected with
      | some b => b
      | none => false
  else if operator = "lte" then
    if actual = .vnone ∨ expected = .vnone then false
    else match pyLt expected actual with
      | some b => !b
      | none => false
  else false

/-- Resolution of one filter's field reference against a
(source, edge, target) match, followed by its operator: the body of the
`for` loop of `matches_filters`. -/
def filter_passes (rs : RegexOracle) (source : Entity) (edge : Rel)
    (target : Entity) (f : PropertyFilter) : Bool :=
  let actual :=
    match splitField f.field with
    | some (context, field_name) =>
      if context = "edge" then edge.get field_name
      else
        let data :=
          if context = "target" ∨ context = "object" then target
          else source
        let field_name := if field_name = "node_type" then "type" else field_name
        data.get field_name
    | none => pyOr (target.get f.field) (pyOr (edge.get f.field) (source.get f.field))
  apply_operator rs actual f.operator f.value

/-- `matches_filters`: every filter must pass. -/
def matches_filters (rs : RegexOracle) (source : Entity) (edge : Rel)
    (target : Entity) (filters : List PropertyFilter) : Bool :=
  filters.all (filter_passes rs source edge target)

/-- `filter_nodes_by_pattern`: ids of the entities matching the pattern,
in snapshot order. -/
def filter_nodes_by_pattern (entities : List Entity) (np : NodePattern) : List String :=
  (entities.filter (fun e =>
    (match sActive np.node_type with
     | some t => e.type = t
     | none => true) &&
    (match sActive np.name with
     | some n => strLower e.name = strLower n
     | none => true))).map (fun e => e.id)

/-- `matches_edge_pattern` (an absent or empty pattern accepts every
relationship). -/
def matches_edge_pattern (rel : Rel) (ep : Option EdgePattern) : Bool :=
  match ep with
  | none => true
  | some ep =>
    (match sActive ep.relation_type with
     | some t => strUpper rel.predicate = strUpper t
     | none => true) &&
    (match ep.min_confidence with
     | some mc => !(rel.confidence.getD 0 < mc)
     | none => true)

/-- A (source, edge, target) match produced by the node-query pipeline. -/
structure Match where
  source : Entity
  edge : Rel
  target : Entity
deriving DecidableEq

/-- `get_field_value(match, field_ref, node_pattern)`. -/
def get_field_value (m : Match) (field_ref : String) (np : NodePattern) : Value :=
  match splitField field_ref with
  | none => .vnone
  | some (context, field_name) =>
    let var_name := np.var.getD "node"
    if context = var_name then m.source.get field_name
    else if context = "target" then m.target.get field_name
    else m.edge.get field_name

/-- The group key of a match: the stringified tuple of its resolved
`group_by` values. -/
def groupKey (np : NodePattern) (group_by : List String) (m : Match) : List String :=
  group_by.map (fun f => pyStr (get_field_value m f np))

/-- Append a match to its group in the insertion-ordered group list,
creating the group at the end when the key is new. -/
def insertGrouped (key : List String) (m : Match) :
    List (List String × List Match) → List (List String × List Match)
  | [] => [(key, [m])]
  | (k, ms) :: rest =>
    if k = key then (k, ms ++ [m]) :: rest else (k, ms) :: insertGrouped key m rest

/-- The `groups` dict of `aggregate_results`, in insertion order. -/
def groupMatches (np : NodePattern) (group_by : List String)
    (ms : List Match) : List (List String × List Match) :=
  ms.foldl (fun acc m => insertGrouped (groupKey np group_by m) m acc) []

/-- `compute_count`: paper-evidence field paths sum `len(papers)`,
paths ending in `.evidence` sum the `evidence_count` attribute
(defaulting to 1), all other paths count matches. -/
def compute_count (ms : List Match) (field_ref : String)
    (_np : NodePattern) : ℚ :=
  if pyInStr "evidence.paper_id" field_ref ||
      (pyInStr "evidence" field_ref && pyInStr "paper" field_ref) then
    ms.foldl (fun acc m => acc + (m.edge.papers.length : ℚ)) 0
  else if strEndsWith field_ref ".evidence" then
    ms.foldl (fun acc m => acc + m.edge.evidence_count.getD 1) 0
  else (ms.length : ℚ)

/-- Python `round(q, 2)` on exact rationals: round half to even at the
second decimal. -/
def round2 (q : ℚ) : ℚ :=
  let x := q * 100
  let f : ℤ := Int.floor x
  let r := x - (f : ℚ)
  let n : ℤ :=
    if r < 1 / 2 then f
    else if (1 : ℚ) / 2 < r then f + 1
    else if f % 2 = 0 then f else f + 1
  (n : ℚ) / 100

/-- The numeric values of a field across matches (absent and
non-numeric values are skipped, as `isinstance(value, (int, float))`
does). -/
def numericFieldValues (ms : List Match) (field_ref : String)
    (np : NodePattern) : List ℚ :=
  ms.filterMap (fun m =>
    match get_field_value m field_ref np with
    | .vnum q => some q
    | _ => none)

/-- `compute_avg`. -/
def compute_avg (ms : List Match) (field_ref : String) (np : NodePattern) : ℚ :=
  let values := numericFieldValues ms field_ref np
  if values = [] then 0 else round2 (values.sum / values.length)

/-- `compute_sum`. -/
def compute_sum (ms : List Match) (field_ref : String) (np : NodePattern) : ℚ :=
  round2 (numericFieldValues ms field_ref np).sum

/-- The non-`None` values of a field across matches (this is the only
filtering `compute_min`/`compute_max` perform). -/
def presentFieldValues (ms : List Match) (field_ref : String)
    (np : NodePattern) : List Value :=
  ms.filterMap (fun m =>
    let v := get_field_value m field_ref np
    if v = .vnone then none else some v)

/-- Python `min` scan over values; an incomparable pair (a `TypeError`
in Python) keeps the current best. -/
def pyMinFold (best : Value) : List Value → Value
  | [] => best
  | v :: vs => if pyLt v best = some true then pyMinFold v vs else pyMinFold best vs

/-- Python `max` scan over values; an incomparable pair (a `TypeError`
in Python) keeps the current best. -/
def pyMaxFold (best : Value) : List Value → Value
  | [] => best
  | v :: vs => if pyLt best v = some true then pyMaxFold v vs else pyMaxFold best vs

/-- `compute_min` (`.vnone` models the `None` returned for an empty
value list). -/
def compute_min (ms : List Match) (field_ref : String) (np : NodePattern) : Value :=
  match presentFieldValues ms field_ref np with
  | [] => .vnone
  | v :: vs => pyMinFold v vs

/-- `compute_max`. -/
def compute_max (ms : List Match) (field_ref : String) (np : NodePattern) : Value :=
  match presentFieldValues ms field_ref np with
  | [] => .vnone
  | v :: vs => pyMaxFold v vs

/-- The aggregation entries of one group's result row: a malformed spec
(fewer than two elements) or an unknown function adds no entry. -/
def computeAggEntries (aggregations : List (String × List String))
    (group : List Match) (np : NodePattern) (row : Row) : Row :=
  aggregations.foldl (fun row entry =>
    match entry with
    | (agg_name, agg_func :: agg_field :: _) =>
      if agg_func = "count" then
        rowInsert row agg_name (.vnum (compute_count group agg_field np))
      else if agg_func = "avg" then
        rowInsert row agg_name (.vnum (compute_avg group agg_field np))
      else if agg_func = "sum" then
        rowInsert row agg_name (.vnum (compute_sum group agg_field np))
      else if agg_func = "min" then
        rowInsert row agg_name (compute_min group agg_field np)
      else if agg_func = "max" then
        rowInsert row agg_name (compute_max group agg_field np)
      else row
    | (_, _) => row) row

/-- `aggregate_results`. -/
def aggregate_results (ms : List Match) (aggregate : Aggregate)
    (np : NodePattern) : List Row :=
  (groupMatches np aggregate.group_by ms).map (fun g =>
    let base := (aggregate.group_by.zip g.1).foldl
      (fun row kv => rowInsert row kv.1 (.vstr kv.2)) []
    computeAggEntries aggregate.aggregations g.2 np base)

/-- The sort key of one row under `order_by`: missing fields and `None`
default to `0`, numeric values are negated for `desc`. -/
def sortKey (order_by : List (String × String)) (row : Row) : List Value :=
  order_by.map (fun spec =>
    let v := rowGetD row spec.1 (.vnum 0)
    let v := if v = .vnone then .vnum 0 else v
    if spec.2 = "desc" then
      match v with
      | .vnum q => .vnum (-q)
      | w => w
    else v)

/-- Ordering on sort keys: `a` may precede `b` unless `b`'s key is
strictly smaller (incomparable keys, a `TypeError` in Python's `sorted`,
are treated as tied). -/
def keyLe (ob : List (String × String)) (a b : Row) : Bool :=
  pyLtList (sortKey ob b) (sortKey ob a) ≠ some true

/-- `order_results`: a stable sort by the tuple of keys; an empty
`order_by` returns the rows unchanged. -/
def order_results (results : List Row) (order_by : List (String × String)) : List Row :=
  if order_by = [] then results else results.mergeSort (keyLe order_by)

/-- Python `l[:n]`, including the negative-index case. -/
def pyTake (n : Int) (l : List Row) : List Row :=
  if 0 ≤ n then l.take n.toNat else l.take (l.length - (-n).toNat)

/-- `if limit: results = results[:limit]` — a missing or zero (falsy)
limit leaves the rows unchanged. -/
def applyLimit (limit : Option Int) (l : List Row) : List Row :=
  match limit with
  | none => l
  | some n => if n = 0 then l else pyTake n l

/-- `project_fields`. -/
def project_fields (results : List Row) (return_fields : List String) : List Row :=
  results.map (fun row =>
    return_fields.foldl (fun acc f =>
      match rowLookup row f with
      | some v => rowInsert acc f v
      | none => acc) [])

/-- `if return_fields:` — projection runs only for a present, non-empty
field list. -/
def applyProjection (return_fields : Option (List String)) (results : List Row) : List Row :=
  match return_fields with
  | some (f :: fs) => project_fields results (f :: fs)
  | _ => results

/-- The body of the relationship loop of `execute_node_query`: the match
produced by one (source node, relationship) pair, if any. -/
def matchCandidate (rs : RegexOracle) (ep : Option EdgePattern)
    (filters : List PropertyFilter) (node : Entity) (rel : Rel)
    (ds : Dataset) : Option Match :=
  if rel.subject_id ≠ node.id then none
  else if !matches_edge_pattern rel ep then none
  else match entLookup ds.entities rel.object_id with
    | none => none
    | some target =>
      if matches_filters rs node rel target filters then
        some { source := node, edge := rel, target := target }
      else none

/-- Steps 1–2 of `execute_node_query`: the match list. -/
def nodeQueryMatches (rs : RegexOracle) (q : Query) (ds : Dataset) : List Match :=
  (filter_nodes_by_pattern ds.entities q.node_pattern).flatMap (fun node_id =>
    match entLookup ds.entities node_id with
    | none => []
    | some node =>
      ds.relationships.filterMap (fun rel =>
        matchCandidate rs q.edge_pattern q.filters node rel ds))

/-- `execute_node_query` (the `results` list of its response). -/
def execute_node_query (rs : RegexOracle) (q : Query) (ds : Dataset) : List Row :=
  let ms := nodeQueryMatches rs q ds
  let var_name := q.node_pattern.var.getD "node"
  let results :=
    match q.aggregate with
    | some aggregate => aggregate_results ms aggregate q.node_pattern
    | none =>
      ms.map (fun m =>
        [(var_name ++ ".name", Value.vstr m.source.name),
         (var_name ++ ".id", Value.vstr m.source.id)])
  let results := order_results results q.order_by
  let results := applyLimit q.limit results
  applyProjection q.return_fields results

/-- The result row of one relationship in `execute_edge_query`. -/
def edgeResultRow (source : Entity) (rel : Rel) (target : Entity) : Row :=
  [("subject.name", .vstr source.name),
   ("subject.id", .vstr source.id),
   ("subject.type", .vstr source.type),
   ("predicate", .vstr rel.predicate),
   ("object.name", .vstr target.name),
   ("object.id", .vstr target.id),
   ("object.type", .vstr target.type),
   ("confidence", .vnum (rel.confidence.getD 0)),
   ("evidence_count", .vnum (rel.evidence_count.getD 0)),
   ("papers", .vlist rel.papers)]

/-- The body of the relationship loop of `execute_edge_query`: the
result row produced for one relationship, if any. -/
def edgeCandidate (rs : RegexOracle) (ep : Option EdgePattern)
    (filters : List PropertyFilter) (ds : Dataset) (rel : Rel) : Option Row :=
  if !matches_edge_pattern rel ep then none
  else
    match entLookup ds.entities rel.subject_id,
        entLookup ds.entities rel.object_id with
    | some source, some target =>
      if matches_filters rs source rel target filters then
        some (edgeResultRow source rel target)
      else none
    | _, _ => none

/-- `execute_edge_query` (the `results` list of its response). -/
def execute_edge_query (rs : RegexOracle) (q : Query) (ds : Dataset) : List Row :=
  let results := ds.relationships.filterMap (edgeCandidate rs q.edge_pattern q.filters ds)
  let results := order_results results q.order_by
  let results := applyLimit q.limit results
  applyProjection q.return_fields results

/-- One collected path: the visited nodes and traversed edges. -/
structure Path where
  nodes : List Entity
  edges : List Rel
deriving DecidableEq

/-- `matches_edge_spec` (path-hop edge constraint). -/
def matches_edge_spec (rel : Rel) (es : EdgeSpec) : Bool :=
  (match sActive es.relation_type with
   | some t => strUpper rel.predicate = strUpper t
   | none => true) &&
  (match es.relation_types with
   | [] => true
   | ts => ts.any (fun t => strUpper rel.predicate = strUpper t)) &&
  (match es.min_confidence with
   | some mc => !(rel.confidence.getD 0 < mc)
   | none => true)

/-- `matches_node_spec` (path-hop node constraint). -/
def matches_node_spec (node : Entity) (ns : NodePattern) : Bool :=
  (match sActive ns.node_type with
   | some t => node.type = t
   | none => true) &&
  (match ns.node_types with
   | [] => true
   | ts => ts.contains node.type) &&
  (match sActive ns.name with
   | some n => strLower node.name = strLower n
   | none => true)

/-- `traverse_paths`: depth-first recursive expansion.  The Python
version appends completed paths to a shared output list and addresses
the current hop as `edge_specs[hop_index]`; here each call returns the
paths it would append, in the same depth-first order, and recursion is
structural on `remaining_specs`, the suffix `edge_specs[hop_index:]` of
the hop specifications (so `hop_index >= len(edge_specs)` becomes
`remaining_specs = []`, and `edge_specs[hop_index]` is its head).
`hop_index` is still carried for the `hop_index >= max_hops` test. -/
def traverse_paths (current : Entity) (current_path_nodes : List Entity)
    (current_path_edges : List Rel) (remaining_specs : List EdgeSpecItem)
    (hop_index : Nat) (max_hops : Int) (avoid_cycles : Bool)
    (ds : Dataset) : List Path :=
  let path_nodes := current_path_nodes ++ [current]
  match remaining_specs with
  | [] => [{ nodes := path_nodes, edges := current_path_edges }]
  | spec :: rest =>
    if max_hops ≤ (hop_index : Int) then
      [{ nodes := path_nodes, edges := current_path_edges }]
    else
      match spec with
      | .malformed => []
      | .valid edge_spec target_spec =>
        ds.relationships.flatMap (fun rel =>
          if rel.subject_id ≠ current.id then []
          else if !matches_edge_spec rel edge_spec then []
          else
            match entLookup ds.entities rel.object_id with
            | none => []
            | some target =>
              if !matches_node_spec target target_spec then []
              else if avoid_cycles && path_nodes.any (fun n => n.id = rel.object_id) then []
              else traverse_paths target path_nodes (current_path_edges ++ [rel])
                rest (hop_index + 1) max_hops avoid_cycles ds)

/-- The effective hop bound:
`path_pattern.get("max_hops", len(edge_specs))`. -/
def path_max_hops (pp : PathPattern) : Int :=
  pp.max_hops.getD pp.edges.length

/-- The `paths` list accumulated by `execute_path_query` before result
conversion. -/
def collect_paths (q : Query) (ds : Dataset) : List Path :=
  match q.path_pattern with
  | none => []
  | some pp =>
    (filter_nodes_by_pattern ds.entities pp.start).flatMap (fun start_id =>
      match entLookup ds.entities start_id with
      | none => []
      | some start_node =>
        traverse_paths start_node [] [] pp.edges 0 (path_max_hops pp)
          (pp.avoid_cycles.getD true) ds)

/-- Attributes the default path projection hides. -/
def internalFields : List String :=
  ["type", "canonical_id", "mentions", "aliases", "description"]

/-- All items of an entity, in the fixed-keys-first order of the
snapshot dicts. -/
def entityItems (e : Entity) : List (String × Value) :=
  [("id", Value.vstr e.id), ("name", Value.vstr e.name),
   ("type", Value.vstr e.type)] ++ e.attrs

/-- `build_path_result`. -/
def build_path_result (path : Path) (start_spec : NodePattern)
    (edge_specs : List EdgeSpecItem) : Row :=
  let start_var := start_spec.var.getD "start"
  let result : Row :=
    match path.nodes with
    | [] => []
    | start_node :: _ =>
      (entityItems start_node).foldl (fun row kv =>
        if internalFields.contains kv.1 then row
        else rowInsert row (start_var ++ "." ++ kv.1) kv.2) []
  edge_specs.enum.foldl (fun row pair =>
    match pair with
    | (_, .malformed) => row
    | (i, .valid edge_spec target_spec) =>
      let row :=
        match path.edges[i]? with
        | none => row
        | some edge =>
          let edge_var := edge_spec.var.getD ("edge" ++ toString i)
          let row := rowInsert row (edge_var ++ ".relation_type") (.vstr edge.predicate)
          let row := rowInsert row (edge_var ++ ".confidence") (.vnum (edge.confidence.getD 0))
          edge.metadata.foldl (fun row kv =>
            rowInsert row (edge_var ++ "." ++ kv.1) kv.2) row
      match path.nodes[i + 1]? with
      | none => row
      | some node =>
        let node_var := target_spec.var.getD ("node" ++ toString (i + 1))
        (entityItems node).foldl (fun row kv =>
          if internalFields.contains kv.1 then row
          else rowInsert row (node_var ++ "." ++ kv.1) kv.2) row) result

/-- `matches_path_filters`: filters applied against the flattened path
result row. -/
def matches_path_filters (rs : RegexOracle) (row : Row)
    (filters : List PropertyFilter) : Bool :=
  filters.all (fun f => apply_operator rs (rowGetD row f.field .vnone) f.operator f.value)

/-- `execute_path_query` (the `results` list of its response). -/
def execute_path_query (rs : RegexOracle) (q : Query) (ds : Dataset) : List Row :=
  match q.path_pattern with
  | none => []
  | some pp =>
    let results := (collect_paths q ds).map (fun p => build_path_result p pp.start pp.edges)
    let results :=
      if q.filters = [] then results
      else results.filter (fun r => matches_path_filters rs r q.filters)
    let results := order_results results q.order_by
    let results := applyLimit q.limit results
    applyProjection q.return_fields results

/-- The relationship predicate of the WHERE clause emitted by the SQL
compiler for an edge pattern: `rel.predicate = %s` (exact) and
`rel.confidence >= %s`, the latter only for a truthy `min_confidence`
and false on a SQL NULL confidence. -/
def sqlEdgeOk (ep : EdgePattern) (r : Rel) : Bool :=
  (match sActive ep.relation_type with
   | some t => r.predicate = t
   | none => true) &&
  (match qActive ep.min_confidence with
   | some mc =>
     match r.confidence with
     | some c => decide (mc ≤ c)
     | none => false
   | none => true)

/-- The entity predicate of the WHERE clause emitted for a node
pattern: `entity_type = %s` and `LOWER(name) = LOWER(%s)`, each only
for truthy pattern values. -/
def sqlNodeOk (np : NodePattern) (e : Entity) : Bool :=
  (match sActive np.node_type with
   | some t => e.type = t
   | none => true) &&
  (match sActive np.name with
   | some n => strLower e.name = strLower n
   | none => true)

/-- The row selected for a source entity:
`SELECT <var>.name AS "<var>.name", <var>.id AS "<var>.id"`. -/
def sqlNodeRow (var_name : String) (e : Entity) : Row :=
  [(var_name ++ ".name", Value.vstr e.name), (var_name ++ ".id", Value.vstr e.id)]

/-- Relational semantics of the statement emitted by
`SQLQueryExecutor.execute_node_query` for node queries without
`aggregate`, `filters`, `order_by`, `limit`, `return_fields` or
`vector_search`: `FROM entities <var>` with the node-pattern
predicates, joined (only when the query carries a non-empty
`edge_pattern` dict) to `relationships rel ON <var>.id = rel.subject_id`
and `entities target ON rel.object_id = target.id` with the
edge-pattern predicates. -/
def sql_node_query (q : Query) (ds : Dataset) : List Row :=
  let var_name := q.node_pattern.var.getD "node"
  match q.edge_pattern with
  | none => (ds.entities.filter (sqlNodeOk q.node_pattern)).map (sqlNodeRow var_name)
  | some ep =>
    ds.entities.flatMap (fun e =>
      if sqlNodeOk q.node_pattern e then
        ds.relationships.flatMap (fun r =>
          if e.id = r.subject_id && sqlEdgeOk ep r then
            (ds.entities.filter (fun t => t.id = r.object_id)).map
              (fun _ => sqlNodeRow var_name e)
          else [])
      else [])

/-- Whether a query stays inside the construct set both backends
implement: a plain node query whose filters use only the operators the
SQL translator maps (`eq`, `ne`, `in`, `gt`, `contains`) and whose
aggregations use only the five shared functions. -/
def uses_only_shared_constructs (q : Query) : Bool :=
  q.find = "nodes" && q.vector_search.isNone && q.path_pattern.isNone &&
  q.filters.all (fun f => ["eq", "ne", "in", "gt", "contains"].contains f.operator) &&
  (match q.aggregate with
   | some agg => agg.aggregations.all (fun entry =>
     match entry.2 with
     | func :: _ => ["count", "avg", "sum", "min", "max"].contains func
     | [] => false)
   | none => true)

/-- A response envelope as a Python dict: each of the two keys may be
present or absent. -/
structure Envelope where
  results : Option (List Row) := none
  error : Option String := none
deriving DecidableEq

/-- One row of the pgvector search result, already mapped to the
`entity` dict of `execute_vector_search_query`. -/
structure DBEntityRow where
  id : String
  name : String
  entity_type : String
  properties : List (String × Value)
  similarity : ℚ
deriving DecidableEq

/-- The external collaborators of `execute_vector_search_query`: the
embedding model (an exception becomes `.error`), the `DATABASE_URL`
environment variable, and the pgvector similarity query (connection or
execution exceptions become `.error`). -/
structure VSOracles where
  embed_query : String → Except String (List ℚ)
  database_url : Option String
  db_search : String → List ℚ → ℚ → Int → Except String (List DBEntityRow)

/-- The full `entity` dict of a vector-search hit as a result row. -/
def vsFullRow (ent : DBEntityRow) : Row :=
  [("id", .vstr ent.id), ("name", .vstr ent.name),
   ("type", .vstr ent.entity_type), ("properties", .vdict ent.properties),
   ("similarity", .vnum ent.similarity)]

/-- Field projection of a vector-search hit (the `filtered` dict):
unknown fields are silently skipped. -/
def vsProjectedRow (return_fields : List String) (ent : DBEntityRow) : Row :=
  return_fields.foldl (fun acc field =>
    if field = "similarity" then rowInsert acc field (.vnum ent.similarity)
    else if field = "node_type" then rowInsert acc field (.vstr ent.entity_type)
    else if field = "id" then rowInsert acc field (.vstr ent.id)
    else if field = "name" then rowInsert acc field (.vstr ent.name)
    else if field = "type" then rowInsert acc field (.vstr ent.entity_type)
    else if field = "properties" then rowInsert acc field (.vdict ent.properties)
    else if strStartsWith field "properties." then
      match splitField field with
      | some (_, prop_name) =>
        rowInsert acc field
          ((ent.properties.find? (fun p => p.1 = prop_name)).elim Value.vnone (fun p => p.2))
      | none => acc
    else acc) []

/-- `execute_vector_search_query`.  Note which failure paths omit the
`results` key of the returned envelope. -/
def execute_vector_search_query (vso : VSOracles) (q : Query) : Envelope :=
  let vector_params := q.vector_search.getD {}
  let return_fields := q.return_fields.getD ["name", "entity_type", "similarity"]
  match sActive vector_params.text with
  | none => { results := some [], error := none }
  | some text =>
    match vso.embed_query text with
    | .error e => { results := none, error := some e }
    | .ok query_embedding =>
      match sActive vso.database_url with
      | none => { results := none, error := some "DATABASE_URL not set" }
      | some db_url =>
        match vso.db_search db_url query_embedding
            (vector_params.min_similarity.getD 0) (vector_params.top_k.getD 10) with
        | .error e => { results := some [], error := some e }
        | .ok rows =>
          { results := some (rows.map (fun ent =>
              if return_fields.isEmpty then vsFullRow ent
              else vsProjectedRow return_fields ent)),
            error := none }

/-- `execute_query`: dispatch on `find`, with top-level `vector_search`
checked only for node queries.  Interpreter branches always produce a
results-only envelope. -/
def execute_query (rs : RegexOracle) (vso : VSOracles) (q : Query)
    (ds : Dataset) : Envelope :=
  if q.find = "edges" ∨ q.find = "relationships" then
    { results := some (execute_edge_query rs q ds), error := none }
  else if q.find = "paths" then
    { results := some (execute_path_query rs q ds), error := none }
  else if q.vector_search.isSome then execute_vector_search_query vso q
  else { results := some (execute_node_query rs q ds), error := none }

/-- The fields of the `/query` endpoint response relevant here. -/
structure ServerResponse where
  status : String
  results : List Row
  error : Option String
  total_results : Nat
deriving DecidableEq

/-- The `/query` endpoint handler around one executor outcome: an
`Except.error` models an exception escaping `execute_query`; an
envelope without a `results` key makes the handler's own
`result["results"]` access raise a `KeyError` (whose message text is
abbreviated here as `"results"`), caught by the same `except` branch. -/
def query_endpoint (outcome : Except String Envelope) : ServerResponse :=
  match outcome with
  | .error e =>
    { status := "error", results := [], error := some e, total_results := 0 }
  | .ok env =>
    match env.results with
    | none =>
      { status := "error", results := [], error := some "results", total_results := 0 }
    | some rows =>
      { status := "success", results := rows, error := none, total_results := rows.length }

/-! ### Small helper definitions used by theorem statements -/

/-- A value is a Python number (`isinstance(value, (int, float))`). -/
def Value.isNum : Value → Bool
  | .vnum _ => true
  | _ => false

/-- The query with one more filter appended to its filter list. -/
def addFilter (q : Query) (f : PropertyFilter) : Query :=
  { q with filters := q.filters ++ [f] }

/-- The query with its `offset` member replaced. -/
def withOffset (q : Query) (o : Option Int) : Query :=
  { q with offset := o }

/-- The query with its `limit` member replaced. -/
def withLimit (q : Query) (l : Option Int) : Query :=
  { q with limit := l }

/-- The query with the `max_hops` member of its path pattern replaced
(queries without a path pattern are returned unchanged). -/
def withMaxHops (q : Query) (mh : Option Int) : Query :=
  match q.path_pattern with
  | none => q
  | some pp => { q with path_pattern := some { pp with max_hops := mh } }

/-- The condition routing `compute_count` to the papers-counting branch. -/
def isPaperEvidenceField (field_ref : String) : Bool :=
  pyInStr "evidence.paper_id" field_ref ||
    (pyInStr "evidence" field_ref && pyInStr "paper" field_ref)

/-! ### Concrete data for witnesses and counterexamples -/

/-- An oracle whose searches never match (any total oracle is a valid
stand-in for the regex library when no filter uses `regex`). -/
def rsFalse : RegexOracle := fun _ _ => some false

/-- An oracle whose searches always match. -/
def rsTrue : RegexOracle := fun _ _ => some true

def entA : Entity := { id := "a", name := "A", type := "t", attrs := [] }

def entB : Entity := { id := "b", name := "B", type := "t", attrs := [] }

def entC : Entity := { id := "c", name := "C", type := "t", attrs := [] }

def relAB : Rel :=
  { subject_id := "a", predicate := "R", object_id := "b", confidence := some 1,
    evidence_count := none, papers := [], metadata := [], attrs := [] }

def relBA : Rel :=
  { subject_id := "b", predicate := "R", object_id := "a", confidence := some 1,
    evidence_count := none, papers := [], metadata := [], attrs := [] }

def relBC : Rel :=
  { subject_id := "b", predicate := "R", object_id := "c", confidence := some 1,
    evidence_count := none, papers := [], metadata := [], attrs := [] }

/-- Two entities joined in a 2-cycle. -/
def dsCycle : Dataset := { entities := [entA, entB], relationships := [relAB, relBA] }

/-- A 3-entity chain `a → b → c`. -/
def dsChain : Dataset := { entities := [entA, entB, entC], relationships := [relAB, relBC] }

/-- An unconstrained path hop. -/
def hopAny : EdgeSpecItem := .valid {} {}

/-- A 2-hop path query over the cycle with an explicit `avoid_cycles`. -/
def cyclePathQuery (av : Bool) : Query :=
  { find := "paths",
    path_pattern := some
      { start := { name := some "A" }, edges := [hopAny, hopAny],
        avoid_cycles := some av } }

/-- A 2-hop path query over the chain (defaults for `max_hops` and
`avoid_cycles`). -/
def chainPathQuery : Query :=
  { find := "paths",
    path_pattern := some { start := { name := some "A" }, edges := [hopAny, hopAny] } }

/-- The chain query with a declared hop count of 2 but `max_hops = 1`. -/
def truncatedPathQuery : Query :=
  { find := "paths",
    path_pattern := some
      { start := { name := some "A" }, edges := [hopAny, hopAny], max_hops := some 1 } }

/-- A plain node query over the cycle dataset carrying `offset = 1`. -/
def offsetNodeQuery : Query :=
  { node_pattern := { node_type := some "t" }, offset := some 1 }

/-- A single drug entity with no relationships. -/
def dsDrug : Dataset :=
  { entities := [{ id := "e1", name := "Aspirin", type := "drug", attrs := [] }],
    relationships := [] }

/-- A bare node query filtering on `node_type` only — a construct both
backends support. -/
def drugNodeQuery : Query := { node_pattern := { node_type := some "drug" } }

/-- A node query over the chain with a non-empty edge pattern, inside
the fragment of the amended backend-equivalence claim. -/
def sharedFragmentQuery : Query :=
  { node_pattern := { node_type := some "t" },
    edge_pattern := some { relation_type := some "R" } }

/-- A match whose edge has a genuine list-valued `evidence` attribute of
three elements but no `evidence_count`. -/
def evidenceListMatch : Match :=
  { source := entA,
    edge := { relAB with attrs := [("evidence", Value.vlist [.vnum 1, .vnum 2, .vnum 3])] },
    target := entB }

/-- A match whose edge carries two supporting papers. -/
def twoPapersMatch : Match :=
  { source := entA,
    edge := { relAB with papers := [.vstr "p1", .vstr "p2"] },
    target := entB }

/-- A match whose referenced field value is a non-numeric string. -/
def stringValueMatch : Match :=
  { source := { entA with attrs := [("x", Value.vstr "abc")] },
    edge := relAB, target := entB }

/-- Vector-search oracles whose embedding call raises. -/
def vsoEmbedFail : VSOracles :=
  { embed_query := fun _ => .error "boom",
    database_url := some "postgres",
    db_search := fun _ _ _ _ => .ok [] }

/-- Vector-search oracles that fail inside the database block. -/
def vsoDbFail : VSOracles :=
  { embed_query := fun _ => .ok [1],
    database_url := some "postgres",
    db_search := fun _ _ _ _ => .error "connection refused" }

/-- A top-level vector-search query. -/
def vsQuery : Query := { vector_search := some { text := some "hello" } }

/-- A regex pattern of 201 characters. -/
def longPattern : String := ⟨List.replicate 201 'a'⟩

/-! ### General lemmas -/

theorem applyLimit_some_zero : applyLimit (some 0) = applyLimit none := by
  funext l
  simp [applyLimit]

theorem numericFieldValues_eq_nil {ms : List Match} {f : String} {np : NodePattern}
    (h : ∀ m ∈ ms, (get_field_value m f np).isNum = false) :
    numericFieldValues ms f np = [] := by
  rw [numericFieldValues, List.filterMap_eq_nil_iff]
  intro m hm
  have := h m hm
  cases hv : get_field_value m f np <;> simp_all [Value.isNum]

theorem numericFieldValues_cons_skip {m : Match} {ms : List Match} {f : String}
    {np : NodePattern} (h : (get_field_value m f np).isNum = false) :
    numericFieldValues (m :: ms) f np = numericFieldValues ms f np := by
  rw [numericFieldValues, List.filterMap_cons, numericFieldValues]
  cases hv : get_field_value m f np <;> simp_all [Value.isNum]

theorem presentFieldValues_eq_nil {ms : List Match} {f : String} {np : NodePattern}
    (h : ∀ m ∈ ms, get_field_value m f np = .vnone) :
    presentFieldValues ms f np = [] := by
  rw [presentFieldValues, List.filterMap_eq_nil_iff]
  intro m hm
  simp [h m hm]

theorem presentFieldValues_cons_skip {m : Match} {ms : List Match} {f : String}
    {np : NodePattern} (h : get_field_value m f np = .vnone) :
    presentFieldValues (m :: ms) f np = presentFieldValues ms f np := by
  rw [presentFieldValues, List.filterMap_cons, presentFieldValues]
  simp [h]

theorem round2_zero : round2 0 = 0 := by
  norm_num [round2]

theorem foldl_add_map (l : List Match) (g : Match → ℚ) (init : ℚ) :
    l.foldl (fun acc x => acc + g x) init = init + (l.map g).sum := by
  induction l generalizing init with
  | nil => simp
  | cons a t ih => simp [ih, add_assoc]

theorem compute_count_papers {f : String} (ms : List Match) (np : NodePattern)
    (h : isPaperEvidenceField f = true) :
    compute_count ms f np = (ms.map (fun m => (m.edge.papers.length : ℚ))).sum := by
  rw [isPaperEvidenceField] at h
  rw [compute_count, if_pos h, foldl_add_map, zero_add]

theorem map_fst_insertGrouped (k : List String) (m : Match)
    (acc : List (List String × List Match)) :
    (insertGrouped k m acc).map Prod.fst =
      if k ∈ acc.map Prod.fst then acc.map Prod.fst else acc.map Prod.fst ++ [k] := by
  induction acc with
  | nil => simp [insertGrouped]
  | cons p rest ih =>
    obtain ⟨k0, g0⟩ := p
    by_cases hk : k0 = k
    · subst hk
      simp [insertGrouped]
    · rw [insertGrouped, if_neg hk]
      simp only [List.map_cons]
      rw [ih]
      by_cases hmem : k ∈ rest.map Prod.fst
      · rw [if_pos hmem, if_pos (by simp [hmem])]
      · have hno : k ∉ k0 :: rest.map Prod.fst := by
          simp only [List.mem_cons]
          rintro (h | h)
          · exact hk h.symm
          · exact hmem h
        rw [if_neg hmem, if_neg hno]
        simp

theorem mem_insertGrouped {km : List String} {m : Match} :
    ∀ {acc : List (List String × List Match)}, ((acc.map Prod.fst).Nodup) →
    ∀ {p : List String × List Match}, p ∈ insertGrouped km m acc →
      (p ∈ acc ∧ p.1 ≠ km) ∨
      (∃ g, (km, g) ∈ acc ∧ p = (km, g ++ [m])) ∨
      (km ∉ acc.map Prod.fst ∧ p = (km, [m])) := by
  intro acc
  induction acc with
  | nil =>
    intro _ p hp
    simp only [insertGrouped, List.mem_singleton] at hp
    exact Or.inr (Or.inr ⟨by simp, hp⟩)
  | cons q rest ih =>
    intro hnd p hp
    obtain ⟨k0, g0⟩ := q
    simp only [List.map_cons, List.nodup_cons] at hnd
    by_cases hk : k0 = km
    · subst hk
      rw [insertGrouped, if_pos rfl] at hp
      rcases List.mem_cons.mp hp with h | h
      · exact Or.inr (Or.inl ⟨g0, List.mem_cons_self _ _, h⟩)
      · refine Or.inl ⟨List.mem_cons_of_mem _ h, ?_⟩
        intro hpk
        exact hnd.1 (hpk ▸ List.mem_map_of_mem Prod.fst h)
    · rw [insertGrouped, if_neg hk] at hp
      rcases List.mem_cons.mp hp with h | h
      · subst h
        exact Or.inl ⟨List.mem_cons_self _ _, hk⟩
      · rcases ih hnd.2 h with ⟨h1, h2⟩ | ⟨g, hg, hpg⟩ | ⟨h1, h2⟩
        · exact Or.inl ⟨List.mem_cons_of_mem _ h1, h2⟩
        · exact Or.inr (Or.inl ⟨g, List.mem_cons_of_mem _ hg, hpg⟩)
        · refine Or.inr (Or.inr ⟨?_, h2⟩)
          simp only [List.map_cons, List.mem_cons]
          rintro (h | h)
          · exact hk h.symm
          · exact h1 h

theorem groupMatches_append (np : NodePattern) (gb : List String)
    (l : List Match) (m : Match) :
    groupMatches np gb (l ++ [m]) =
      insertGrouped (groupKey np gb m) m (groupMatches np gb l) := by
  simp [groupMatches, List.foldl_append]

theorem nodup_map_fst_groupMatches (np : NodePattern) (gb : List String)
    (l : List Match) : ((groupMatches np gb l).map Prod.fst).Nodup := by
  induction l using List.reverseRecOn with
  | nil => simp [groupMatches]
  | append_singleton l m ih =>
    rw [groupMatches_append, map_fst_insertGrouped]
    split
    · exact ih
    · next hmem => simp [List.Nodup.append ih (List.nodup_singleton _) (by simpa using hmem)]

theorem mem_map_fst_groupMatches (np : NodePattern) (gb : List String)
    (l : List Match) : ∀ (k : List String),
    k ∈ (groupMatches np gb l).map Prod.fst ↔ ∃ m ∈ l, groupKey np gb m = k := by
  induction l using List.reverseRecOn with
  | nil => simp [groupMatches]
  | append_singleton l m ih =>
    intro k
    rw [groupMatches_append, map_fst_insertGrouped]
    split
    · next hmem =>
      rw [ih]
      constructor
      · rintro ⟨m', hm', hk⟩
        exact ⟨m', by simp [hm'], hk⟩
      · rintro ⟨m', hm', hk⟩
        rcases List.mem_append.mp hm' with h | h
        · exact ⟨m', h, hk⟩
        · rcases List.mem_singleton.mp h with rfl
          subst hk
          exact (ih (groupKey np gb m')).mp hmem
    · simp only [List.mem_append, List.mem_singleton, ih]
      constructor
      · rintro (⟨m', hm', hk⟩ | hk)
        · exact ⟨m', Or.inl hm', hk⟩
        · exact ⟨m, Or.inr rfl, hk.symm⟩
      · rintro ⟨m', h | h, hk⟩
        · exact Or.inl ⟨m', h, hk⟩
        · rcases h with rfl
          exact Or.inr hk.symm

theorem snd_groupMatches (np : NodePattern) (gb : List String) (l : List Match) :
    ∀ p ∈ groupMatches np gb l,
      p.2 = l.filter (fun m => decide (groupKey np gb m = p.1)) := by
  induction l using List.reverseRecOn with
  | nil => simp [groupMatches]
  | append_singleton l m ih =>
    intro p hp
    rw [groupMatches_append] at hp
    rcases mem_insertGrouped (nodup_map_fst_groupMatches np gb l) hp with
      ⟨h1, h2⟩ | ⟨g, hg, hpg⟩ | ⟨h1, h2⟩
    · rw [ih p h1, List.filter_append]
      have hdec : decide (groupKey np gb m = p.1) = false := by
        rw [decide_eq_false_iff_not]
        exact fun h => h2 h.symm
      simp [hdec]
    · subst hpg
      rw [List.filter_append]
      have hg2 := ih (groupKey np gb m, g) hg
      simp only at hg2
      simp [hg2]
    · subst h2
      rw [List.filter_append]
      have : l.filter (fun m2 => decide (groupKey np gb m2 = groupKey np gb m)) = [] := by
        rw [List.filter_eq_nil_iff]
        intro m2 hm2
        simp only [decide_eq_true_eq]
        intro hkeq
        exact h1 ((mem_map_fst_groupMatches np gb l (groupKey np gb m)).mpr ⟨m2, hm2, hkeq⟩)
      simp [this]

theorem rowLookup_rowInsert (r : Row) (k : String) (v : Value) :
    rowLookup (rowInsert r k v) k = some v := by
  induction r with
  | nil => simp [rowInsert, rowLookup]
  | cons p rest ih =>
    obtain ⟨k0, v0⟩ := p
    by_cases hk : k0 = k
    · subst hk
      simp [rowInsert, rowLookup]
    · simp only [rowInsert, if_neg hk]
      rw [rowLookup, List.find?_cons_of_neg _ (by simpa using hk)]
      exact ih

theorem sum_map_ge_length (c : Match → ℚ) :
    ∀ (l : List Match), (∀ m ∈ l, 1 ≤ c m) → (l.length : ℚ) ≤ (l.map c).sum := by
  intro l
  induction l with
  | nil => simp
  | cons a t ih =>
    intro h
    simp only [List.map_cons, List.sum_cons, List.length_cons]
    have h1 := h a (List.mem_cons_self _ _)
    have h2 := ih (fun m hm => h m (List.mem_cons_of_mem _ hm))
    push_cast
    linarith

theorem sum_map_gt_length (c : Match → ℚ) :
    ∀ (l : List Match), (∀ m ∈ l, 1 ≤ c m) → (∃ m ∈ l, 2 ≤ c m) →
      (l.length : ℚ) < (l.map c).sum := by
  intro l
  induction l with
  | nil => simp
  | cons a t ih =>
    intro h1 h2
    simp only [List.map_cons, List.sum_cons, List.length_cons]
    have ha := h1 a (List.mem_cons_self _ _)
    have ht := sum_map_ge_length c t (fun m hm => h1 m (List.mem_cons_of_mem _ hm))
    rcases h2 with ⟨m, hm, hm2⟩
    rcases List.mem_cons.mp hm with rfl | hmt
    · push_cast
      linarith
    · have := ih (fun m2 hm2 => h1 m2 (List.mem_cons_of_mem _ hm2)) ⟨m, hmt, hm2⟩
      push_cast at this ⊢
      linarith

/-! ### Claim C6 -/

/-- C6: on string operands the `regex` operator is the case-insensitive
search of the regex library (modelled by the oracle); a pattern longer
than 200 characters never matches regardless of its content or of the
oracle, and a pattern the library rejects (`re.error`) yields
filter-non-match rather than an error. -/
theorem c6_regex_operator (rs : RegexOracle) (text pattern : String) :
    (pattern.length > MAX_REGEX_PATTERN_LENGTH →
      apply_operator rs (.vstr text) "regex" (.vstr pattern) = false) ∧
    (rs pattern text = none →
      apply_operator rs (.vstr text) "regex" (.vstr pattern) = false) ∧
    (∀ b : Bool, pattern.length ≤ MAX_REGEX_PATTERN_LENGTH → rs pattern text = some b →
      apply_operator rs (.vstr text) "regex" (.vstr pattern) = b) := by
  refine ⟨fun h => ?_, fun h => ?_, fun b hlen h => ?_⟩
  · simp [apply_operator, h]
  · by_cases hl : pattern.length > MAX_REGEX_PATTERN_LENGTH
    · simp [apply_operator, hl]
    · simp [apply_operator, hl, h]
  · simp [apply_operator, Nat.not_lt.mpr hlen, h]

/-- C6 witness: the 201-character pattern never matches even under an
always-matching oracle, and a short pattern follows the oracle. -/
theorem c6_regex_operator_witness :
    longPattern.length > MAX_REGEX_PATTERN_LENGTH ∧
    apply_operator rsTrue (.vstr "x") "regex" (.vstr longPattern) = false ∧
    apply_operator rsTrue (.vstr "x") "regex" (.vstr "abc") = true :=
  ⟨by decide, (c6_regex_operator rsTrue "x" longPattern).1 (by decide),
    (c6_regex_operator rsTrue "x" "abc").2.2 true (by decide) rfl⟩

/-! ### Claim C10 -/

/-- C10: a `limit` of 0 is falsy, so the limit step leaves the result
list of node, edge and path queries unchanged — all rows are returned,
exactly as when no limit is given. -/
theorem c10_limit_zero_returns_all (rs : RegexOracle) (q : Query) (ds : Dataset)
    (h : q.limit = some 0) :
    execute_node_query rs q ds = execute_node_query rs (withLimit q none) ds ∧
    execute_edge_query rs q ds = execute_edge_query rs (withLimit q none) ds ∧
    execute_path_query rs q ds = execute_path_query rs (withLimit q none) ds := by
  obtain ⟨find, np, ep, pp, fl, ag, ob, lim, off, rf, vs⟩ := q
  have h' : lim = some 0 := h
  subst h'
  exact ⟨rfl, rfl, rfl⟩

/-- C10 witness at a concrete query with `limit = 0`. -/
theorem c10_limit_zero_witness :
    execute_node_query rsFalse (withLimit offsetNodeQuery (some 0)) dsCycle =
      execute_node_query rsFalse (withLimit (withLimit offsetNodeQuery (some 0)) none) dsCycle :=
  (c10_limit_zero_returns_all rsFalse (withLimit offsetNodeQuery (some 0)) dsCycle rfl).1

/-! ### Claim C5 -/

/-- C5 (amended): the executor never reads `offset` — node, edge and
path query results are identical for every offset value, so no rows are
ever skipped. -/
theorem c5_offset_has_no_effect (rs : RegexOracle) (q : Query) (ds : Dataset)
    (o : Option Int) :
    execute_node_query rs (withOffset q o) ds = execute_node_query rs q ds ∧
    execute_edge_query rs (withOffset q o) ds = execute_edge_query rs q ds ∧
    execute_path_query rs (withOffset q o) ds = execute_path_query rs q ds :=
  ⟨rfl, rfl, rfl⟩

/-- C5 counterexample: a node query carrying `offset = 1` over two
matching rows returns both rows — the result is not the list with its
first row skipped, so offset is not honored for node queries. -/
theorem c5_offset_counterexample :
    offsetNodeQuery.offset = some 1 ∧
    execute_node_query rsFalse offsetNodeQuery dsCycle =
      [[("node.name", Value.vstr "A"), ("node.id", Value.vstr "a")],
       [("node.name", Value.vstr "B"), ("node.id", Value.vstr "b")]] ∧
    execute_node_query rsFalse offsetNodeQuery dsCycle ≠
      (execute_node_query rsFalse offsetNodeQuery dsCycle).drop 1 := by
  refine ⟨rfl, by decide, by decide⟩

/-! ### Claim C8 -/

/-- C8 (amended): `avg` and `sum` skip absent and non-numeric values
and return 0 over an empty numeric set; `min` and `max` skip only
absent (`None`) values — they operate over all remaining values,
numeric or not — and return absent over an empty set. -/
theorem c8_numeric_aggregations (ms : List Match) (f : String) (np : NodePattern) :
    ((∀ m ∈ ms, (get_field_value m f np).isNum = false) →
      compute_avg ms f np = 0 ∧ compute_sum ms f np = 0) ∧
    (∀ (m : Match) (tail : List Match), (get_field_value m f np).isNum = false →
      compute_avg (m :: tail) f np = compute_avg tail f np ∧
      compute_sum (m :: tail) f np = compute_sum tail f np) ∧
    ((∀ m ∈ ms, get_field_value m f np = .vnone) →
      compute_min ms f np = .vnone ∧ compute_max ms f np = .vnone) ∧
    (∀ (m : Match) (tail : List Match), get_field_value m f np = .vnone →
      compute_min (m :: tail) f np = compute_min tail f np ∧
      compute_max (m :: tail) f np = compute_max tail f np) := by
  refine ⟨fun h => ?_, fun m tail h => ?_, fun h => ?_, fun m tail h => ?_⟩
  · rw [compute_avg, compute_sum, numericFieldValues_eq_nil h]
    simp [round2_zero]
  · rw [compute_avg, compute_avg, compute_sum, compute_sum,
      numericFieldValues_cons_skip h]
    exact ⟨rfl, rfl⟩
  · rw [compute_min, compute_max, presentFieldValues_eq_nil h]
    exact ⟨rfl, rfl⟩
  · rw [compute_min, compute_min, compute_max, compute_max,
      presentFieldValues_cons_skip h]
    exact ⟨rfl, rfl⟩

/-- C8 witness: over a single match whose value is the non-numeric
string `"abc"`, `avg` and `sum` are 0. -/
theorem c8_numeric_aggregations_witness :
    compute_avg [stringValueMatch] "node.x" {} = 0 ∧
    compute_sum [stringValueMatch] "node.x" {} = 0 :=
  (c8_numeric_aggregations [stringValueMatch] "node.x" {}).1 (by decide)

/-- C8 counterexample: `compute_min` does not skip the non-numeric
string value — it returns it, where the claim requires the absent
result of an empty numeric set. -/
theorem c8_minmax_counterexample :
    (get_field_value stringValueMatch "node.x" {}).isNum = false ∧
    compute_min [stringValueMatch] "node.x" {} = .vstr "abc" ∧
    compute_min [stringValueMatch] "node.x" {} ≠ .vnone := by
  refine ⟨by decide, by decide, by decide⟩

/-! ### Claim C3 -/

/-- C3 (amended): for a `count` aggregation whose field path contains
`evidence.paper_id` (or both `evidence` and `paper`), each result row's
count is the sum of `len(papers)` over the matches of its group, and it
strictly exceeds the group's match count whenever every papers list is
non-empty and some papers list has more than one element.  (A path
merely ending in `.evidence` instead sums the `evidence_count`
attribute, defaulting to 1 per match — see the counterexample.) -/
theorem c3_evidence_count_aggregation (np : NodePattern) (gb : List String)
    (agg_name f : String) (ms : List Match) (hp : isPaperEvidenceField f = true) :
    (∀ row ∈ aggregate_results ms
        { group_by := gb, aggregations := [(agg_name, ["count", f])] } np,
      ∃ key, rowLookup row agg_name = some (.vnum
        (((ms.filter (fun m => decide (groupKey np gb m = key))).map
          (fun m => (m.edge.papers.length : ℚ))).sum))) ∧
    ((∀ m ∈ ms, 1 ≤ m.edge.papers.length) → (∃ m ∈ ms, 2 ≤ m.edge.papers.length) →
      (ms.length : ℚ) < compute_count ms f np) := by
  constructor
  · intro row hrow
    rw [aggregate_results] at hrow
    rcases List.mem_map.mp hrow with ⟨g, hg, hrowg⟩
    refine ⟨g.1, ?_⟩
    have hsnd := snd_groupMatches np gb ms g hg
    have hrow2 : row = rowInsert
        ((gb.zip g.1).foldl (fun row kv => rowInsert row kv.1 (.vstr kv.2)) [])
        agg_name (.vnum (compute_count g.2 f np)) := by
      rw [← hrowg]
      simp [computeAggEntries]
    rw [hrow2, rowLookup_rowInsert, compute_count_papers _ _ hp, hsnd]
  · intro h1 h2
    rw [compute_count_papers _ _ hp]
    apply sum_map_gt_length
    · intro m hm
      have := h1 m hm
      exact_mod_cast Nat.one_le_cast.mpr this
    · rcases h2 with ⟨m, hm, hm2⟩
      exact ⟨m, hm, by exact_mod_cast Nat.cast_le.mpr hm2⟩

/-- C3 witness: grouping one two-paper relationship by subject name
yields a `paper_count` of 2 (= `len(papers)`), not 1 (= match count). -/
theorem c3_evidence_count_witness :
    ∃ key, rowLookup [("node.name", Value.vstr "A"), ("paper_count", Value.vnum 2)]
        "paper_count" = some (.vnum
      ((([twoPapersMatch].filter (fun m => decide (groupKey {} ["node.name"] m = key))).map
        (fun m => (m.edge.papers.length : ℚ))).sum)) :=
  (c3_evidence_count_aggregation {} ["node.name"] "paper_count" "e.evidence.paper_id"
    [twoPapersMatch] (by decide)).1
    [("node.name", Value.vstr "A"), ("paper_count", Value.vnum 2)]
    (by with_unfolding_all decide)

/-- C3 counterexample: for the field path `e.evidence` (which ends in
`.evidence`), the count over a match whose edge has a list-valued
`evidence` attribute of three elements and no `evidence_count` is 1 —
the `evidence_count` default, equal to the match count — not the number
of elements of the referenced list-valued attribute. -/
theorem c3_evidence_count_counterexample :
    strEndsWith "e.evidence" ".evidence" = true ∧
    evidenceListMatch.edge.get "evidence" = .vlist [.vnum 1, .vnum 2, .vnum 3] ∧
    compute_count [evidenceListMatch] "e.evidence" {} = 1 ∧
    compute_count [evidenceListMatch] "e.evidence" {} =
      (([evidenceListMatch] : List Match).length : ℚ) ∧
    compute_count [evidenceListMatch] "e.evidence" {} ≠ 3 := by
  refine ⟨by decide, by decide, by with_unfolding_all decide,
    by with_unfolding_all decide, by with_unfolding_all decide⟩

/-! ### Claim C4 -/

theorem traverse_paths_eq_of_maxhops_ge :
    ∀ (specs : List EdgeSpecItem) (cur : Entity) (pn : List Entity) (pe : List Rel)
      (hop : Nat) (mh₁ mh₂ : Int) (av : Bool) (ds : Dataset),
      ((hop : Int) + specs.length ≤ mh₁) → ((hop : Int) + specs.length ≤ mh₂) →
      traverse_paths cur pn pe specs hop mh₁ av ds =
        traverse_paths cur pn pe specs hop mh₂ av ds := by
  intro specs
  induction specs with
  | nil => intro cur pn pe hop mh₁ mh₂ av ds h1 h2; rfl
  | cons spec rest ih =>
    intro cur pn pe hop mh₁ mh₂ av ds h1 h2
    simp only [List.length_cons] at h1 h2
    rw [traverse_paths.eq_def, traverse_paths.eq_def]
    dsimp only
    rw [if_neg (by push_cast at h1 ⊢; omega), if_neg (by push_cast at h2 ⊢; omega)]
    cases spec with
    | malformed => rfl
    | valid edge_spec target_spec =>
      simp only []
      congr 1
      funext rel
      split
      · rfl
      split
      · rfl
      split
      · rfl
      next target heq =>
      split
      · rfl
      split
      · rfl
      apply ih
      · push_cast at h1 ⊢; omega
      · push_cast at h2 ⊢; omega

/-- C4 (amended): a missing `max_hops` defaults to the declared hop
count `len(path_pattern.edges)`, and a supplied `max_hops` at least the
declared hop count never extends traversal — it collects exactly the
default's paths.  But no validation occurs: a `max_hops` smaller than
the declared hop count is silently applied and truncates traversal (see
the counterexample). -/
theorem c4_max_hops_handling (q : Query) (ds : Dataset) (pp : PathPattern) :
    (pp.max_hops = none → path_max_hops pp = pp.edges.length) ∧
    (∀ mh : Int, q.path_pattern = some pp → (pp.edges.length : Int) ≤ mh →
      collect_paths (withMaxHops q (some mh)) ds =
        collect_paths (withMaxHops q none) ds) := by
  constructor
  · intro h
    rw [path_max_hops, h]
    rfl
  · intro mh hq hmh
    rw [withMaxHops, withMaxHops, hq]
    simp only [collect_paths]
    congr 1
    funext start_id
    cases entLookup ds.entities start_id with
    | none => rfl
    | some start_node =>
      simp only []
      apply traverse_paths_eq_of_maxhops_ge
      · simpa [path_max_hops] using hmh
      · simp [path_max_hops]

/-- C4 witness: over the 2-hop chain query, `max_hops = 5` collects the
same paths as the default. -/
theorem c4_max_hops_witness :
    collect_paths (withMaxHops chainPathQuery (some 5)) dsChain =
      collect_paths (withMaxHops chainPathQuery none) dsChain :=
  (c4_max_hops_handling chainPathQuery dsChain
    { start := { name := some "A" }, edges := [hopAny, hopAny] }).2 5 rfl (by decide)

/-! ### Claim C2 -/

theorem entLookup_id {ents : List Entity} {eid : String} {e : Entity}
    (h : entLookup ents eid = some e) : e.id = eid := by
  have := List.find?_some h
  simpa using this

theorem traverse_paths_nodup :
    ∀ (specs : List EdgeSpecItem) (cur : Entity) (pn : List Entity) (pe : List Rel)
      (hop : Nat) (mh : Int) (ds : Dataset),
      (((pn ++ [cur]).map Entity.id).Nodup) →
      ∀ p ∈ traverse_paths cur pn pe specs hop mh true ds,
        ((p.nodes.map Entity.id).Nodup) := by
  intro specs
  induction specs with
  | nil =>
    intro cur pn pe hop mh ds hnd p hp
    rw [traverse_paths.eq_def] at hp
    dsimp only at hp
    rw [List.mem_singleton] at hp
    subst hp
    exact hnd
  | cons spec rest ih =>
    intro cur pn pe hop mh ds hnd p hp
    rw [traverse_paths.eq_def] at hp
    dsimp only at hp
    by_cases hguard : mh ≤ (hop : Int)
    · rw [if_pos hguard] at hp
      rw [List.mem_singleton] at hp
      subst hp
      exact hnd
    · rw [if_neg hguard] at hp
      cases spec with
      | malformed => simp at hp
      | valid edge_spec target_spec =>
        rw [List.mem_flatMap] at hp
        obtain ⟨rel, hrel, hp⟩ := hp
        split at hp
        · simp at hp
        split at hp
        · simp at hp
        split at hp
        · simp at hp
        next target hlook =>
        split at hp
        · simp at hp
        split at hp
        · simp at hp
        next hnocycle =>
        refine ih target (pn ++ [cur]) (pe ++ [rel]) (hop + 1) mh ds ?_ p hp
        rw [List.map_append]
        rw [List.nodup_append]
        refine ⟨hnd, List.nodup_singleton _, ?_⟩
        intro x hx hx1
        rw [List.map_singleton, List.mem_singleton] at hx1
        subst hx1
        have hoid : target.id = rel.object_id := entLookup_id hlook
        rw [Bool.not_eq_true, Bool.and_eq_false_iff] at hnocycle
        rcases hnocycle with h | h
        · simp at h
        · rw [List.any_eq_false] at h
          rcases List.mem_map.mp hx with ⟨n, hn, hnid⟩
          exact h n hn (by rw [hnid, hoid]; simp)

/-- C2: with `avoid_cycles = true` (also the default) no collected path
repeats a node id — a candidate target whose id appears anywhere in the
current path's node list, the start node included, is pruned; with
`avoid_cycles = false` over a graph with a 2-cycle and a 2-hop pattern,
a path revisiting the start node is emitted. -/
theorem c2_cycle_avoidance :
    (∀ (q : Query) (ds : Dataset) (pp : PathPattern),
      q.path_pattern = some pp → pp.avoid_cycles.getD true = true →
      ∀ p ∈ collect_paths q ds, ((p.nodes.map Entity.id).Nodup)) ∧
    ((cyclePathQuery false).path_pattern.bind (fun pp => pp.avoid_cycles) =
        some false ∧
      ∃ p ∈ collect_paths (cyclePathQuery false) dsCycle,
        ¬ ((p.nodes.map Entity.id).Nodup)) := by
  constructor
  · intro q ds pp hq hav p hp
    rw [collect_paths, hq] at hp
    rw [List.mem_flatMap] at hp
    obtain ⟨sid, hsid, hp⟩ := hp
    cases hl : entLookup ds.entities sid with
    | none => rw [hl] at hp; simp at hp
    | some s =>
      rw [hl, hav] at hp
      exact traverse_paths_nodup pp.edges s [] [] 0 (path_max_hops pp) ds (by simp) p hp
  · exact ⟨rfl, ⟨{ nodes := [entA, entB, entA], edges := [relAB, relBA] },
      by decide, by decide⟩⟩

/-- C2 witness: the chain query (default `avoid_cycles = true`) emits
the path `a → b → c`, whose node ids are distinct, by the theorem. -/
theorem c2_cycle_avoidance_witness :
    ({ nodes := [entA, entB, entC], edges := [relAB, relBC] } : Path) ∈
      collect_paths chainPathQuery dsChain ∧
    ((({ nodes := [entA, entB, entC], edges := [relAB, relBC] } : Path).nodes.map
      Entity.id).Nodup) :=
  ⟨by decide, c2_cycle_avoidance.1 chainPathQuery dsChain
    { start := { name := some "A" }, edges := [hopAny, hopAny] } rfl rfl
    { nodes := [entA, entB, entC], edges := [relAB, relBC] } (by decide)⟩

/-- C4 counterexample: a query declaring two hops but supplying
`max_hops = 1` is executed without any validation error and silently
truncates: the collected path has one edge instead of two, and the
query returns a normal (non-empty) result row. -/
theorem c4_silent_truncation_counterexample :
    truncatedPathQuery.path_pattern = some
      { start := { name := some "A" }, edges := [hopAny, hopAny], max_hops := some 1 } ∧
    collect_paths truncatedPathQuery dsChain = [{ nodes := [entA, entB], edges := [relAB] }] ∧
    collect_paths (withMaxHops truncatedPathQuery none) dsChain =
      [{ nodes := [entA, entB, entC], edges := [relAB, relBC] }] ∧
    (execute_path_query rsFalse truncatedPathQuery dsChain).length = 1 := by
  refine ⟨rfl, by decide, by decide, by decide⟩

/-! ### Claim C7 -/

theorem addFilter_node_pattern (q : Query) (f : PropertyFilter) :
    (addFilter q f).node_pattern = q.node_pattern := rfl

theorem addFilter_edge_pattern (q : Query) (f : PropertyFilter) :
    (addFilter q f).edge_pattern = q.edge_pattern := rfl

theorem addFilter_path_pattern (q : Query) (f : PropertyFilter) :
    (addFilter q f).path_pattern = q.path_pattern := rfl

theorem addFilter_aggregate (q : Query) (f : PropertyFilter) :
    (addFilter q f).aggregate = q.aggregate := rfl

theorem addFilter_order_by (q : Query) (f : PropertyFilter) :
    (addFilter q f).order_by = q.order_by := rfl

theorem addFilter_limit (q : Query) (f : PropertyFilter) :
    (addFilter q f).limit = q.limit := rfl

theorem addFilter_return_fields (q : Query) (f : PropertyFilter) :
    (addFilter q f).return_fields = q.return_fields := rfl

theorem addFilter_filters (q : Query) (f : PropertyFilter) :
    (addFilter q f).filters = q.filters ++ [f] := rfl

theorem filterMap_sublist_of_imp {α β : Type} (l : List α) (g g' : α → Option β)
    (h : ∀ a, g' a = g a ∨ g' a = none) :
    (l.filterMap g').Sublist (l.filterMap g) := by
  induction l with
  | nil => simp
  | cons a t ih =>
    rw [List.filterMap_cons, List.filterMap_cons]
    rcases h a with ha | ha
    · rw [ha]
      cases g a with
      | none => exact ih
      | some b => exact ih.cons₂ b
    · rw [ha]
      cases g a with
      | none => exact ih
      | some b => exact ih.cons b

theorem flatMap_sublist {α β : Type} (l : List α) (g g' : α → List β)
    (h : ∀ a, (g' a).Sublist (g a)) :
    (l.flatMap g').Sublist (l.flatMap g) := by
  induction l with
  | nil => simp
  | cons a t ih =>
    rw [List.flatMap_cons, List.flatMap_cons]
    exact (h a).append ih

theorem filter_sublist_of_imp {α : Type} {p p' : α → Bool} (l : List α)
    (h : ∀ a, p' a = true → p a = true) :
    (l.filter p').Sublist (l.filter p) := by
  induction l with
  | nil => simp
  | cons a t ih =>
    rw [List.filter_cons, List.filter_cons]
    by_cases ha : p' a = true
    · rw [if_pos ha, if_pos (h a ha)]
      exact ih.cons₂ a
    · rw [if_neg ha]
      split
      · exact ih.cons a
      · exact ih

theorem matches_filters_append_eq (rs : RegexOracle) (s : Entity) (e : Rel)
    (t : Entity) (fs : List PropertyFilter) (f : PropertyFilter) :
    matches_filters rs s e t (fs ++ [f]) =
      (matches_filters rs s e t fs && filter_passes rs s e t f) := by
  simp [matches_filters, List.all_append]

theorem matchCandidate_addFilter (rs : RegexOracle) (ep : Option EdgePattern)
    (fs : List PropertyFilter) (f : PropertyFilter) (node : Entity) (rel : Rel)
    (ds : Dataset) :
    matchCandidate rs ep (fs ++ [f]) node rel ds = matchCandidate rs ep fs node rel ds ∨
      matchCandidate rs ep (fs ++ [f]) node rel ds = none := by
  rw [matchCandidate, matchCandidate]
  by_cases hs : rel.subject_id ≠ node.id
  · rw [if_pos hs, if_pos hs]
    exact Or.inr rfl
  rw [if_neg hs, if_neg hs]
  by_cases he : (!matches_edge_pattern rel ep) = true
  · rw [if_pos he, if_pos he]
    exact Or.inr rfl
  rw [if_neg he, if_neg he]
  cases entLookup ds.entities rel.object_id with
  | none => exact Or.inr rfl
  | some target =>
    dsimp only
    rw [matches_filters_append_eq]
    by_cases h1 : matches_filters rs node rel target fs = true
    · by_cases h2 : filter_passes rs node rel target f = true
      · simp [h1, h2]
      · simp [h1, h2]
    · simp [h1]

theorem nodeQueryMatches_addFilter_sublist (rs : RegexOracle) (q : Query)
    (ds : Dataset) (f : PropertyFilter) :
    (nodeQueryMatches rs (addFilter q f) ds).Sublist (nodeQueryMatches rs q ds) := by
  rw [nodeQueryMatches, nodeQueryMatches, addFilter_node_pattern]
  apply flatMap_sublist
  intro nid
  cases entLookup ds.entities nid with
  | none => simp
  | some node =>
    dsimp only
    apply filterMap_sublist_of_imp
    intro rel
    exact matchCandidate_addFilter rs q.edge_pattern q.filters f node rel ds

theorem edgeCandidate_addFilter (rs : RegexOracle) (ep : Option EdgePattern)
    (fs : List PropertyFilter) (f : PropertyFilter) (ds : Dataset) (rel : Rel) :
    edgeCandidate rs ep (fs ++ [f]) ds rel = edgeCandidate rs ep fs ds rel ∨
      edgeCandidate rs ep (fs ++ [f]) ds rel = none := by
  rw [edgeCandidate, edgeCandidate]
  by_cases he : (!matches_edge_pattern rel ep) = true
  · rw [if_pos he, if_pos he]
    exact Or.inr rfl
  rw [if_neg he, if_neg he]
  cases entLookup ds.entities rel.subject_id with
  | none =>
    cases entLookup ds.entities rel.object_id with
    | none => exact Or.inr rfl
    | some target => exact Or.inr rfl
  | some source =>
    cases entLookup ds.entities rel.object_id with
    | none => exact Or.inr rfl
    | some target =>
      dsimp only
      rw [matches_filters_append_eq]
      by_cases h1 : matches_filters rs source rel target fs = true
      · by_cases h2 : filter_passes rs source rel target f = true
        · simp [h1, h2]
        · simp [h1, h2]
      · simp [h1]

theorem length_aggregate_results (ms : List Match) (agg : Aggregate)
    (np : NodePattern) :
    (aggregate_results ms agg np).length = (groupMatches np agg.group_by ms).length := by
  simp [aggregate_results]

theorem length_groupMatches (np : NodePattern) (gb : List String) (l : List Match) :
    (groupMatches np gb l).length = (l.map (groupKey np gb)).toFinset.card := by
  have h1 : (groupMatches np gb l).length =
      ((groupMatches np gb l).map Prod.fst).length := by simp
  rw [h1, ← List.toFinset_card_of_nodup (nodup_map_fst_groupMatches np gb l)]
  congr 1
  ext k
  rw [List.mem_toFinset, List.mem_toFinset, mem_map_fst_groupMatches, List.mem_map]

theorem length_groupMatches_le_of_sublist (np : NodePattern) (gb : List String)
    {ms' ms : List Match} (h : ms'.Sublist ms) :
    (groupMatches np gb ms').length ≤ (groupMatches np gb ms).length := by
  rw [length_groupMatches, length_groupMatches]
  apply Finset.card_le_card
  intro k hk
  simp only [List.mem_toFinset] at hk ⊢
  exact (h.map (groupKey np gb)).subset hk

theorem length_order_results (l : List Row) (ob : List (String × String)) :
    (order_results l ob).length = l.length := by
  rw [order_results]
  split
  · rfl
  · exact List.length_mergeSort _

theorem length_pyTake_mono {a b : List Row} (n : Int) (h : a.length ≤ b.length) :
    (pyTake n a).length ≤ (pyTake n b).length := by
  by_cases hn : (0 : Int) ≤ n
  · rw [pyTake, pyTake, if_pos hn, if_pos hn]
    simp only [List.length_take]
    omega
  · rw [pyTake, pyTake, if_neg hn, if_neg hn]
    simp only [List.length_take]
    omega

theorem length_applyLimit_mono (lim : Option Int) {a b : List Row}
    (h : a.length ≤ b.length) :
    (applyLimit lim a).length ≤ (applyLimit lim b).length := by
  cases lim with
  | none => exact h
  | some n =>
    rw [applyLimit, applyLimit]
    by_cases hn : n = 0
    · rw [if_pos hn, if_pos hn]
      exact h
    · rw [if_neg hn, if_neg hn]
      exact length_pyTake_mono n h

theorem length_applyProjection (rf : Option (List String)) (l : List Row) :
    (applyProjection rf l).length = l.length := by
  cases rf with
  | none => rfl
  | some fields =>
    cases fields with
    | nil => rfl
    | cons f fs => simp [applyProjection, project_fields]

theorem matches_path_filters_append (rs : RegexOracle) (row : Row)
    (fs : List PropertyFilter) (f : PropertyFilter) :
    matches_path_filters rs row (fs ++ [f]) =
      (matches_path_filters rs row fs &&
        apply_operator rs (rowGetD row f.field .vnone) f.operator f.value) := by
  simp [matches_path_filters, List.all_append]

/-- C7: a (source, edge, target) match survives the filter list exactly
when each filter, evaluated alone, accepts it; consequently appending a
filter to a node, edge, or path query never increases the number of
result rows. -/
theorem c7_filter_conjunction_and_monotonicity (rs : RegexOracle) :
    (∀ (s : Entity) (e : Rel) (t : Entity) (fs : List PropertyFilter),
      matches_filters rs s e t fs = true ↔
        ∀ f ∈ fs, matches_filters rs s e t [f] = true) ∧
    (∀ (q : Query) (ds : Dataset) (f : PropertyFilter),
      (execute_node_query rs (addFilter q f) ds).length ≤
        (execute_node_query rs q ds).length) ∧
    (∀ (q : Query) (ds : Dataset) (f : PropertyFilter),
      (execute_edge_query rs (addFilter q f) ds).length ≤
        (execute_edge_query rs q ds).length) ∧
    (∀ (q : Query) (ds : Dataset) (f : PropertyFilter),
      (execute_path_query rs (addFilter q f) ds).length ≤
        (execute_path_query rs q ds).length) := by
  refine ⟨fun s e t fs => ?_, fun q ds f => ?_, fun q ds f => ?_, fun q ds f => ?_⟩
  · rw [matches_filters, List.all_eq_true]
    constructor
    · intro h f hf
      rw [matches_filters]
      simp [h f hf]
    · intro h f hf
      have hx := h f hf
      rw [matches_filters] at hx
      simpa using hx
  · rw [execute_node_query, execute_node_query]
    have hsub := nodeQueryMatches_addFilter_sublist rs q ds f
    simp only [addFilter_aggregate, addFilter_node_pattern, addFilter_order_by,
      addFilter_limit, addFilter_return_fields]
    rw [length_applyProjection, length_applyProjection]
    apply length_applyLimit_mono
    rw [length_order_results, length_order_results]
    cases hag : q.aggregate with
    | none =>
      simp only [List.length_map]
      exact hsub.length_le
    | some agg =>
      rw [length_aggregate_results, length_aggregate_results]
      exact length_groupMatches_le_of_sublist q.node_pattern agg.group_by hsub
  · rw [execute_edge_query, execute_edge_query]
    simp only [addFilter_edge_pattern, addFilter_order_by, addFilter_limit,
      addFilter_return_fields]
    rw [length_applyProjection, length_applyProjection]
    apply length_applyLimit_mono
    rw [length_order_results, length_order_results]
    apply List.Sublist.length_le
    apply filterMap_sublist_of_imp
    intro rel
    exact edgeCandidate_addFilter rs q.edge_pattern q.filters f ds rel
  · rw [execute_path_query, execute_path_query]
    rw [addFilter_path_pattern]
    cases hp : q.path_pattern with
    | none => simp
    | some pp =>
      have hcp : collect_paths (addFilter q f) ds = collect_paths q ds := rfl
      simp only [addFilter_order_by, addFilter_limit, addFilter_return_fields,
        addFilter_filters, hcp]
      rw [length_applyProjection, length_applyProjection]
      apply length_applyLimit_mono
      rw [length_order_results, length_order_results]
      have hne : q.filters ++ [f] ≠ [] := by simp
      rw [if_neg hne]
      by_cases hfl : q.filters = []
      · rw [if_pos hfl]
        exact (List.filter_sublist _).length_le
      · rw [if_neg hfl]
        apply List.Sublist.length_le
        apply filter_sublist_of_imp
        intro row hrow
        rw [matches_path_filters_append] at hrow
        exact (Bool.and_eq_true_iff.mp hrow).1

/-! ### Claim C1 -/

theorem order_results_nil (l : List Row) : order_results l [] = l := by
  simp [order_results]

theorem applyLimit_none (l : List Row) : applyLimit none l = l := rfl

theorem applyProjection_none (l : List Row) : applyProjection none l = l := rfl

theorem entLookup_of_mem_nodup {ents : List Entity}
    (hnd : (ents.map Entity.id).Nodup) {e : Entity} (he : e ∈ ents) :
    entLookup ents e.id = some e := by
  induction ents with
  | nil => cases he
  | cons a t ih =>
    rw [List.map_cons, List.nodup_cons] at hnd
    rcases List.mem_cons.mp he with rfl | het
    · rw [entLookup, List.find?_cons_of_pos]
      simp
    · have hne : a.id ≠ e.id := by
        intro hid
        exact hnd.1 (hid ▸ List.mem_map_of_mem Entity.id het)
      rw [entLookup, List.find?_cons_of_neg _ (by simpa using hne)]
      exact ih hnd.2 het

theorem matches_edge_pattern_eq_sqlEdgeOk {ep : EdgePattern} {rel : Rel}
    (hc : ∃ c, rel.confidence = some c ∧ 0 ≤ c)
    (hu : ∀ rt, sActive ep.relation_type = some rt →
      strUpper rel.predicate = strUpper rt → rel.predicate = rt) :
    matches_edge_pattern rel (some ep) = sqlEdgeOk ep rel := by
  obtain ⟨c, hcs, hc0⟩ := hc
  rw [matches_edge_pattern, sqlEdgeOk]
  congr 1
  · cases hrt : sActive ep.relation_type with
    | none => rfl
    | some rt =>
      by_cases hpq : rel.predicate = rt
      · simp [hpq]
      · have hup : strUpper rel.predicate ≠ strUpper rt := fun h => hpq (hu rt hrt h)
        simp [hpq, hup]
  · rw [hcs]
    cases hmc : ep.min_confidence with
    | none => rfl
    | some mc =>
      by_cases hmc0 : mc = 0
      · subst hmc0
        rw [qActive, if_pos rfl]
        simp [not_lt.mpr hc0]
      · rw [qActive, if_neg hmc0]
        simp only [Option.getD_some]
        rw [← decide_not]
        exact decide_eq_decide.mpr not_lt

/-- C1 (amended): over well-formed datasets (unique entity ids,
confidence present and non-negative on every relationship, and predicate
capitalization matching the pattern exactly whenever it matches
case-insensitively), the interpreter and the SQL compiler agree — as
row sets — on node queries that carry a non-empty edge pattern and no
filters, aggregation, ordering, limit or projection.  Without an edge
pattern the backends genuinely diverge (see the counterexample): the
interpreter still demands a matching outgoing relationship while the
emitted SQL performs no join. -/
theorem c1_backend_equivalence_restricted (rs : RegexOracle) (q : Query)
    (ds : Dataset) (ep : EdgePattern)
    (hep : q.edge_pattern = some ep)
    (hfl : q.filters = [])
    (hag : q.aggregate = none)
    (hob : q.order_by = [])
    (hlim : q.limit = none)
    (hrf : q.return_fields = none)
    (hnd : (ds.entities.map Entity.id).Nodup)
    (hconf : ∀ r ∈ ds.relationships, ∃ c, r.confidence = some c ∧ 0 ≤ c)
    (hpred : ∀ r ∈ ds.relationships, ∀ rt, sActive ep.relation_type = some rt →
      strUpper r.predicate = strUpper rt → r.predicate = rt) :
    ∀ row : Row, row ∈ execute_node_query rs q ds ↔ row ∈ sql_node_query q ds := by
  intro row
  obtain ⟨find, np, epat, ppat, fl, ag, ob, lim, off, rf, vs⟩ := q
  obtain rfl : epat = some ep := hep
  obtain rfl : fl = [] := hfl
  obtain rfl : ag = none := hag
  obtain rfl : ob = [] := hob
  obtain rfl : lim = none := hlim
  obtain rfl : rf = none := hrf
  have hfn : ∀ np2, filter_nodes_by_pattern ds.entities np2 =
      (ds.entities.filter (fun e => sqlNodeOk np2 e)).map (fun e => e.id) :=
    fun np2 => rfl
  rw [execute_node_query]
  dsimp only
  rw [order_results_nil, applyProjection_none, applyLimit_none]
  rw [sql_node_query]
  dsimp only
  constructor
  · intro h
    rw [List.mem_map] at h
    obtain ⟨m, hm, hrow⟩ := h
    rw [nodeQueryMatches] at hm
    dsimp only at hm
    rw [List.mem_flatMap] at hm
    obtain ⟨nid, hnid, hm⟩ := hm
    rw [hfn, List.mem_map] at hnid
    obtain ⟨e, he, rfl⟩ := hnid
    rw [List.mem_filter] at he
    obtain ⟨hemem, hok⟩ := he
    rw [entLookup_of_mem_nodup hnd hemem] at hm
    rw [List.mem_filterMap] at hm
    obtain ⟨rel, hrel, hcand⟩ := hm
    rw [matchCandidate] at hcand
    by_cases h1 : rel.subject_id ≠ e.id
    · rw [if_pos h1] at hcand
      cases hcand
    rw [if_neg h1] at hcand
    push_neg at h1
    by_cases h2 : (!matches_edge_pattern rel (some ep)) = true
    · rw [if_pos h2] at hcand
      cases hcand
    rw [if_neg h2] at hcand
    cases hlk : entLookup ds.entities rel.object_id with
    | none =>
      rw [hlk] at hcand
      cases hcand
    | some t =>
      rw [hlk] at hcand
      dsimp only at hcand
      rw [if_pos (show matches_filters rs e rel t [] = true from rfl)] at hcand
      obtain rfl : ({ source := e, edge := rel, target := t } : Match) = m :=
        Option.some.inj hcand
      rw [List.mem_flatMap]
      refine ⟨e, hemem, ?_⟩
      rw [if_pos hok]
      rw [List.mem_flatMap]
      refine ⟨rel, hrel, ?_⟩
      have hedge : sqlEdgeOk ep rel = true := by
        rw [← matches_edge_pattern_eq_sqlEdgeOk (hconf rel hrel) (hpred rel hrel)]
        simpa using h2
      rw [if_pos (by simp [h1.symm, hedge])]
      rw [List.mem_map]
      refine ⟨t, ?_, ?_⟩
      · rw [List.mem_filter]
        exact ⟨List.mem_of_find?_eq_some hlk, by simpa using List.find?_some hlk⟩
      · rw [← hrow]
        rfl
  · intro h
    rw [List.mem_flatMap] at h
    obtain ⟨e, hemem, h⟩ := h
    by_cases hok : sqlNodeOk np e = true
    swap
    · rw [if_neg hok] at h
      cases h
    rw [if_pos hok] at h
    rw [List.mem_flatMap] at h
    obtain ⟨rel, hrel, h⟩ := h
    by_cases hcnd : (decide (e.id = rel.subject_id) && sqlEdgeOk ep rel) = true
    swap
    · rw [if_neg (by simpa using hcnd)] at h
      cases h
    rw [if_pos (by simpa using hcnd)] at h
    rw [List.mem_map] at h
    obtain ⟨t, ht, hrow⟩ := h
    rw [List.mem_filter] at ht
    obtain ⟨htmem, htid⟩ := ht
    obtain ⟨hid, hsql⟩ := Bool.and_eq_true_iff.mp hcnd
    rw [decide_eq_true_eq] at hid
    have htid2 : t.id = rel.object_id := by simpa using htid
    have hlk : entLookup ds.entities rel.object_id = some t := by
      have := entLookup_of_mem_nodup hnd htmem
      rwa [htid2] at this
    rw [List.mem_map]
    refine ⟨{ source := e, edge := rel, target := t }, ?_, ?_⟩
    · rw [nodeQueryMatches]
      dsimp only
      rw [List.mem_flatMap]
      refine ⟨e.id, ?_, ?_⟩
      · rw [hfn, List.mem_map]
        exact ⟨e, List.mem_filter.mpr ⟨hemem, hok⟩, rfl⟩
      · rw [entLookup_of_mem_nodup hnd hemem]
        rw [List.mem_filterMap]
        refine ⟨rel, hrel, ?_⟩
        rw [matchCandidate]
        rw [if_neg (by simp [hid])]
        have hedge : matches_edge_pattern rel (some ep) = true := by
          rw [matches_edge_pattern_eq_sqlEdgeOk (hconf rel hrel) (hpred rel hrel)]
          exact hsql
        rw [if_neg (by simp [hedge])]
        rw [hlk]
        dsimp only
        rw [if_pos (show matches_filters rs e rel t [] = true from rfl)]
    · rw [← hrow]
      rfl

/-- C1 counterexample: a bare `node_type` query — a construct both
backends support — evaluated over one entity with no relationships:
the interpreter returns no rows (it requires a matching outgoing
relationship even with an empty edge pattern), while the compiled SQL
returns the entity row, so the result sets differ. -/
theorem c1_backend_equivalence_counterexample :
    uses_only_shared_constructs drugNodeQuery = true ∧
    execute_node_query rsFalse drugNodeQuery dsDrug = [] ∧
    sql_node_query drugNodeQuery dsDrug =
      [[("node.name", Value.vstr "Aspirin"), ("node.id", Value.vstr "e1")]] ∧
    ¬ (([("node.name", Value.vstr "Aspirin"), ("node.id", Value.vstr "e1")] : Row) ∈
        execute_node_query rsFalse drugNodeQuery dsDrug ↔
      ([("node.name", Value.vstr "Aspirin"), ("node.id", Value.vstr "e1")] : Row) ∈
        sql_node_query drugNodeQuery dsDrug) := by
  refine ⟨by decide, by decide, by decide, by decide⟩

/-- C1 witness: on the chain dataset and a node query with an edge
pattern inside the amended fragment, a concrete row is in the
interpreter's result set exactly when it is in the SQL result set. -/
theorem c1_backend_equivalence_witness :
    (([("node.name", Value.vstr "A"), ("node.id", Value.vstr "a")] : Row) ∈
        execute_node_query rsFalse sharedFragmentQuery dsChain ↔
      ([("node.name", Value.vstr "A"), ("node.id", Value.vstr "a")] : Row) ∈
        sql_node_query sharedFragmentQuery dsChain) :=
  c1_backend_equivalence_restricted rsFalse sharedFragmentQuery dsChain
    { relation_type := some "R" } rfl rfl rfl rfl rfl rfl (by decide)
    (by intro r hr; fin_cases hr <;> exact ⟨1, rfl, by norm_num⟩)
    (by
      intro r hr rt hrt
      have hrt2 : rt = "R" := by
        rw [sActive] at hrt
        simp at hrt
        exact hrt.symm
      subst hrt2
      revert r hr
      decide)
    [("node.name", Value.vstr "A"), ("node.id", Value.vstr "a")]

/-! ### Claim C9 -/

/-- C9 (amended): failures surface an error message, but the envelope
shape is not uniform.  The server endpoint's exception handler and the
vector search's database-failure branch return both `results: []` and
`error`; the embedding-failure and missing-`DATABASE_URL` branches of
`execute_vector_search_query` return `error` alone — the `results` key
is omitted (the endpoint then masks this as a `KeyError`); and an
executor envelope that does carry rows never has its `error` forwarded
by the endpoint's success path. -/
theorem c9_failure_envelope (vso : VSOracles) (q : Query) (text e : String) :
    (query_endpoint (Except.error e) =
      { status := "error", results := [], error := some e, total_results := 0 }) ∧
    (∀ env : Envelope, env.results = none →
      query_endpoint (Except.ok env) =
        { status := "error", results := [], error := some "results",
          total_results := 0 }) ∧
    (∀ (env : Envelope) (rows : List Row), env.results = some rows →
      query_endpoint (Except.ok env) =
        { status := "success", results := rows, error := none,
          total_results := rows.length }) ∧
    (sActive (q.vector_search.getD {}).text = some text →
      vso.embed_query text = Except.error e →
      execute_vector_search_query vso q = { results := none, error := some e }) ∧
    (∀ emb : List ℚ, sActive (q.vector_search.getD {}).text = some text →
      vso.embed_query text = Except.ok emb →
      sActive vso.database_url = none →
      execute_vector_search_query vso q =
        { results := none, error := some "DATABASE_URL not set" }) ∧
    (∀ (emb : List ℚ) (url : String),
      sActive (q.vector_search.getD {}).text = some text →
      vso.embed_query text = Except.ok emb →
      sActive vso.database_url = some url →
      vso.db_search url emb ((q.vector_search.getD {}).min_similarity.getD 0)
        ((q.vector_search.getD {}).top_k.getD 10) = Except.error e →
      execute_vector_search_query vso q =
        { results := some [], error := some e }) := by
  refine ⟨rfl, fun env henv => ?_, fun env rows henv => ?_,
    fun ht hemb => ?_, fun emb ht hemb hurl => ?_,
    fun emb url ht hemb hurl hdb => ?_⟩
  · rw [query_endpoint, henv]
  · rw [query_endpoint, henv]
  · rw [execute_vector_search_query, ht]
    dsimp only
    rw [hemb]
  · rw [execute_vector_search_query, ht]
    dsimp only
    rw [hemb]
    dsimp only
    rw [hurl]
  · rw [execute_vector_search_query, ht]
    dsimp only
    rw [hemb]
    dsimp only
    rw [hurl]
    dsimp only
    rw [hdb]

/-- C9 witness: a failing embedding call at concrete oracles produces
the error-only envelope. -/
theorem c9_failure_envelope_witness :
    execute_vector_search_query vsoEmbedFail vsQuery =
      { results := none, error := some "boom" } :=
  (c9_failure_envelope vsoEmbedFail vsQuery "hello" "boom").2.2.2.1 rfl rfl

/-- C9 counterexample: when the embedding model raises, the evaluation
fails (the envelope carries an error message) yet the `results` key is
omitted — the envelope is not `{"results": [], "error": msg}`.  The
database-failure branch, by contrast, does return both keys. -/
theorem c9_missing_results_counterexample :
    (execute_vector_search_query vsoEmbedFail vsQuery).error = some "boom" ∧
    (execute_vector_search_query vsoEmbedFail vsQuery).results = none ∧
    (execute_vector_search_query vsoDbFail vsQuery).results = some [] ∧
    (execute_vector_search_query vsoDbFail vsQuery).error = some "connection refused" :=
  ⟨rfl, rfl, rfl, rfl⟩

end MLG
